import Mathlib

/-
Verification development for the transform library of the AST-obfuscator
repository (a JavaScript deobfuscator).  The definitions below are a shallow
embedding of the code in packages/tool/src/utils/ast.ts and
packages/tool/src/transforms/sequence.ts: AST nodes follow the babel
(@babel/types) node kinds that the transforms inspect, numeric literal values
are modelled as integers, and the babel expression evaluator is modelled on
the fragment of node kinds present in this AST (forms the model does not
cover evaluate to the not-confident result, mirroring babel deopts).
-/

namespace Deob

/-- Binary operators of the modelled fragment of the babel evaluator. -/
inductive BinOp where
  | add | sub | mul | lt | gt | le | ge | eqLoose | neqLoose | eqStrict | neqStrict
  deriving DecidableEq, Repr

/-- Unary operators appearing in the transforms (logical not, void, numeric
negation, typeof). -/
inductive UnOp where
  | bang | voidOp | neg | typeofOp
  deriving DecidableEq, Repr

/-- AST nodes, one constructor per babel node type used by the transforms.
Like the untyped babel `t.Node`, expressions and statements share one type.
Declarator ids and function parameters are plain names, function bodies are a
single node (a block statement in well-formed trees), numeric literals carry
integers. -/
inductive Node where
  | numericLiteral (value : Int)
  | stringLiteral (value : String)
  | booleanLiteral (value : Bool)
  | identifier (name : String)
  | arrayExpression (elements : List Node)
  | binaryExpression (op : BinOp) (left : Node) (right : Node)
  | unaryExpression (op : UnOp) (argument : Node)
  | assignmentExpression (left : Node) (right : Node)
  | memberExpression (object : Node) (property : Node) (computed : Bool)
  | callExpression (callee : Node) (arguments : List Node)
  | sequenceExpression (expressions : List Node)
  | functionExpression (params : List String) (body : Node)
  | conditionalExpression (test : Node) (consequent : Node) (alternate : Node)
  | expressionStatement (expression : Node)
  | variableDeclarator (id : String) (init : Option Node)
  | variableDeclaration (kind : String) (declarations : List Node)
  | returnStatement (argument : Option Node)
  | throwStatement (argument : Node)
  | ifStatement (test : Node) (consequent : Node) (alternate : Option Node)
  | switchCase (test : Option Node) (consequent : List Node)
  | switchStatement (discriminant : Node) (cases : List Node)
  | forStatement (init : Option Node) (test : Option Node) (update : Option Node) (body : Node)
  | forInStatement (left : Node) (right : Node) (body : Node)
  | whileStatement (test : Node) (body : Node)
  | blockStatement (body : List Node)
  | breakStatement
  | continueStatement
  | emptyStatement
  | debuggerStatement
  | functionDeclaration (name : String) (params : List String) (body : Node)
  deriving Repr

/-- Model of the babel `t.isIdentifier` type guard. -/
def isIdentifier : Node → Bool
  | .identifier _ => true
  | _ => false

/-- Model of the babel `t.isStringLiteral` type guard. -/
def isStringLiteral : Node → Bool
  | .stringLiteral _ => true
  | _ => false

/-- Model of the babel `t.isNumericLiteral` type guard. -/
def isNumericLiteral : Node → Bool
  | .numericLiteral _ => true
  | _ => false

/-- Model of the babel `t.isLiteral` type guard, restricted to the literal
node kinds present in this AST (string, numeric, boolean literals). -/
def isLiteral : Node → Bool
  | .stringLiteral _ => true
  | .numericLiteral _ => true
  | .booleanLiteral _ => true
  | _ => false

/-- Accessor for `node.name`, defaulting to the empty string where the source
would read `undefined` (every use below is behind an `isIdentifier` guard). -/
def identName : Node → String
  | .identifier n => n
  | _ => ""

/-- Accessor for the `value` field of a string literal. -/
def strValue : Node → String
  | .stringLiteral s => s
  | _ => ""

/-- Accessor for the `value` field of a numeric literal. -/
def numValue : Node → Int
  | .numericLiteral v => v
  | _ => 0

/-- Rendering of a JS number as a decimal string, on the integer-valued
number domain of the model (`node.value.toString()` in the source). -/
def jsNumToString (n : Int) : String :=
  toString n

/-- Model of `getPropName` (packages/tool/src/utils/ast.ts, lines 15-26):
a chain of type-guarded early returns, with the empty string as the final
fallback.  The function is total by construction. -/
def getPropName (node : Node) : String :=
  if isIdentifier node then identName node
  else if isStringLiteral node then strValue node
  else if isNumericLiteral node then jsNumToString (numValue node)
  else ""

/-- Decimal digit value of a character, `none` on non-digits. -/
def digitVal (c : Char) : Option Nat :=
  if 48 ≤ c.toNat && c.toNat ≤ 57 then some (c.toNat - 48) else none

/-- Parse a non-empty all-digit character list as a natural number. -/
def jsDigits : List Char → Option Nat
  | [] => none
  | cs => cs.foldl (fun acc c => acc.bind fun n => (digitVal c).map fun d => n * 10 + d) (some 0)

/-- JS string-to-index coercion on the digit-string domain (the coercion JS
performs in `myArr[s]`), written with structural recursion. -/
def jsToNat? (s : String) : Option Nat :=
  jsDigits s.data

/-- JS integer-string parsing with an optional leading minus sign, written
with structural recursion. -/
def jsStringToInt (s : String) : Option Int :=
  match s.data with
  | '-' :: rest => (jsDigits rest).map fun n => -(n : Int)
  | cs => (jsDigits cs).map fun n => (n : Int)

/-- JS `String.prototype.split` with a one-character separator, written with
structural recursion (`"".split(sep)` is `[""]`, as in JS). -/
def jsSplit (sep : Char) (s : String) : List String :=
  s.data.foldr
    (fun c acc =>
      if c = sep then "" :: acc
      else
        match acc with
        | h :: t => String.mk (c :: h.data) :: t
        | [] => [String.mk [c]])
    [""]

/-- Runtime values of the modelled babel evaluator: numbers (as integers),
strings, booleans and undefined.  NaN and non-integer numbers are outside the
model; computations that would produce them are treated as not confident. -/
inductive JsValue where
  | num (n : Int)
  | str (s : String)
  | boolean (b : Bool)
  | undef
  deriving DecidableEq, Repr

/-- JS ToNumber on the modelled value domain.  The empty string converts to 0
and integer-formatted strings parse; other strings would give NaN and are not
modelled (`none`). -/
def toNumber : JsValue → Option Int
  | .num n => some n
  | .str s => if s = "" then some 0 else jsStringToInt s
  | .boolean b => some (if b then 1 else 0)
  | .undef => none

/-- JS ToString on the modelled value domain. -/
def toJsString : JsValue → String
  | .num n => toString n
  | .str s => s
  | .boolean b => if b then "true" else "false"
  | .undef => "undefined"

/-- JS ToBoolean (truthiness) on the modelled value domain. -/
def truthy : JsValue → Bool
  | .num n => n != 0
  | .str s => s != ""
  | .boolean b => b
  | .undef => false

/-- Result of the JS typeof operator on the modelled value domain. -/
def typeofStr : JsValue → String
  | .num _ => "number"
  | .str _ => "string"
  | .boolean _ => "boolean"
  | .undef => "undefined"

/-- JS abstract (loose) equality on the modelled value domain, written as a
full case table.  A string that does not parse as a number compares unequal
to every number, as in JS (NaN is never equal). -/
def jsLooseEq : JsValue → JsValue → Bool
  | .num m, .num n => m = n
  | .str s, .str t => s = t
  | .boolean a, .boolean b => a = b
  | .undef, .undef => true
  | .undef, _ => false
  | _, .undef => false
  | .num m, .str s =>
      match toNumber (.str s) with
      | some n => decide (m = n)
      | none => false
  | .str s, .num n =>
      match toNumber (.str s) with
      | some m => decide (m = n)
      | none => false
  | .boolean a, .num n => decide ((if a then (1 : Int) else 0) = n)
  | .num m, .boolean b => decide (m = (if b then (1 : Int) else 0))
  | .boolean a, .str s =>
      match toNumber (.str s) with
      | some n => decide ((if a then (1 : Int) else 0) = n)
      | none => false
  | .str s, .boolean b =>
      match toNumber (.str s) with
      | some m => decide (m = (if b then (1 : Int) else 0))
      | none => false

/-- JS strict equality on the modelled value domain. -/
def jsStrictEq : JsValue → JsValue → Bool
  | .num m, .num n => m = n
  | .str s, .str t => s = t
  | .boolean a, .boolean b => a = b
  | .undef, .undef => true
  | _, _ => false

/-- Numeric binary helper: convert both operands with ToNumber and combine. -/
def num2 (x y : JsValue) (f : Int → Int → Int) : Option JsValue :=
  (toNumber x).bind fun m => (toNumber y).map fun n => .num (f m n)

/-- Numeric comparison helper: convert both operands with ToNumber and
compare. -/
def cmp2 (x y : JsValue) (f : Int → Int → Bool) : Option JsValue :=
  (toNumber x).bind fun m => (toNumber y).map fun n => .boolean (f m n)

/-- Model of one step of the babel evaluator on a binary operator applied to
two runtime values, following the JS semantics of each operator on the
modelled value domain: `+` concatenates when either side is a string and adds
numerically otherwise; relational operators compare two strings
lexicographically and everything else numerically. -/
def evalBinOp : BinOp → JsValue → JsValue → Option JsValue
  | .add, .str s, x => some (.str (s ++ toJsString x))
  | .add, x, .str s => some (.str (toJsString x ++ s))
  | .add, x, y => num2 x y (· + ·)
  | .sub, x, y => num2 x y (· - ·)
  | .mul, x, y => num2 x y (· * ·)
  | .lt, .str s, .str t => some (.boolean (decide (s < t)))
  | .lt, x, y => cmp2 x y (fun m n => decide (m < n))
  | .gt, .str s, .str t => some (.boolean (decide (t < s)))
  | .gt, x, y => cmp2 x y (fun m n => decide (n < m))
  | .le, .str s, .str t => some (.boolean (decide (s ≤ t)))
  | .le, x, y => cmp2 x y (fun m n => decide (m ≤ n))
  | .ge, .str s, .str t => some (.boolean (decide (t ≤ s)))
  | .ge, x, y => cmp2 x y (fun m n => decide (n ≤ m))
  | .eqLoose, x, y => some (.boolean (jsLooseEq x y))
  | .neqLoose, x, y => some (.boolean (!jsLooseEq x y))
  | .eqStrict, x, y => some (.boolean (jsStrictEq x y))
  | .neqStrict, x, y => some (.boolean (!jsStrictEq x y))

/-- Model of `path.evaluate()` (babel) on the node kinds of this AST.  A
`some` result is a confident evaluation; `none` is a deopt.  Identifiers
deopt except the global `undefined` (the model is scope free; NaN and
Infinity are outside the value domain).  Node kinds babel would evaluate but
that carry no constant data in the modelled programs (members, calls,
assignments, functions) deopt. -/
def evaluateNode : Node → Option JsValue
  | .numericLiteral n => some (.num n)
  | .stringLiteral s => some (.str s)
  | .booleanLiteral b => some (.boolean b)
  | .identifier n => if n = "undefined" then some .undef else none
  | .unaryExpression op a =>
      match op with
      | .bang => (evaluateNode a).map fun v => .boolean (!truthy v)
      | .voidOp => (evaluateNode a).map fun _ => .undef
      | .neg => (evaluateNode a).bind fun v => (toNumber v).map fun n => .num (-n)
      | .typeofOp => (evaluateNode a).map fun v => .str (typeofStr v)
  | .binaryExpression op l r =>
      (evaluateNode l).bind fun lv => (evaluateNode r).bind fun rv => evalBinOp op lv rv
  | _ => none

/-- Model of `path.evaluateTruthy()` (babel): evaluate, then coerce the value
to a boolean; not confident maps to `none` (which JS then treats as falsy at
an `if (path.get(..).evaluateTruthy())` test). -/
def evaluateTruthy (n : Node) : Option Bool :=
  (evaluateNode n).map truthy

/-- Model of `t.valueToNode` on the modelled value domain: non-negative
numbers become numeric literals, negative numbers a unary minus wrapped
around the absolute value (as in babel), strings and booleans their literal
nodes, undefined the identifier `undefined`. -/
def valueToNode : JsValue → Node
  | .num n => if 0 ≤ n then .numericLiteral n else .unaryExpression .neg (.numericLiteral (-n))
  | .str s => .stringLiteral s
  | .boolean b => .booleanLiteral b
  | .undef => .identifier "undefined"

mutual

/-- Bottom-up rewriting combinator over the AST: apply `f` at every node
after mapping the children.  This is the denotational form of a babel
traversal whose visitor rewrites a node once its sub-nodes are in final form
(the shape the `calcBinary` binary pass realises through its recursion into
`path.parentPath` plus `path.skip()`). -/
def mapUp (f : Node → Node) : Node → Node
  | .numericLiteral v => f (.numericLiteral v)
  | .stringLiteral v => f (.stringLiteral v)
  | .booleanLiteral v => f (.booleanLiteral v)
  | .identifier n => f (.identifier n)
  | .arrayExpression es => f (.arrayExpression (mapUpList f es))
  | .binaryExpression op l r => f (.binaryExpression op (mapUp f l) (mapUp f r))
  | .unaryExpression op a => f (.unaryExpression op (mapUp f a))
  | .assignmentExpression l r => f (.assignmentExpression (mapUp f l) (mapUp f r))
  | .memberExpression o p c => f (.memberExpression (mapUp f o) (mapUp f p) c)
  | .callExpression c as => f (.callExpression (mapUp f c) (mapUpList f as))
  | .sequenceExpression es => f (.sequenceExpression (mapUpList f es))
  | .functionExpression ps b => f (.functionExpression ps (mapUp f b))
  | .conditionalExpression t c a => f (.conditionalExpression (mapUp f t) (mapUp f c) (mapUp f a))
  | .expressionStatement e => f (.expressionStatement (mapUp f e))
  | .variableDeclarator x init => f (.variableDeclarator x (mapUpOpt f init))
  | .variableDeclaration k ds => f (.variableDeclaration k (mapUpList f ds))
  | .returnStatement a => f (.returnStatement (mapUpOpt f a))
  | .throwStatement a => f (.throwStatement (mapUp f a))
  | .ifStatement t c a => f (.ifStatement (mapUp f t) (mapUp f c) (mapUpOpt f a))
  | .switchCase t cs => f (.switchCase (mapUpOpt f t) (mapUpList f cs))
  | .switchStatement d cs => f (.switchStatement (mapUp f d) (mapUpList f cs))
  | .forStatement i t u b =>
      f (.forStatement (mapUpOpt f i) (mapUpOpt f t) (mapUpOpt f u) (mapUp f b))
  | .forInStatement l r b => f (.forInStatement (mapUp f l) (mapUp f r) (mapUp f b))
  | .whileStatement t b => f (.whileStatement (mapUp f t) (mapUp f b))
  | .blockStatement b => f (.blockStatement (mapUpList f b))
  | .breakStatement => f .breakStatement
  | .continueStatement => f .continueStatement
  | .emptyStatement => f .emptyStatement
  | .debuggerStatement => f .debuggerStatement
  | .functionDeclaration n ps b => f (.functionDeclaration n ps (mapUp f b))

/-- List companion of `mapUp`. -/
def mapUpList (f : Node → Node) : List Node → List Node
  | [] => []
  | x :: xs => mapUp f x :: mapUpList f xs

/-- Option companion of `mapUp`. -/
def mapUpOpt (f : Node → Node) : Option Node → Option Node
  | none => none
  | some x => some (mapUp f x)

end

mutual

/-- Top-down rewriting combinator over the AST with skip semantics: when the
step function fires at a node, the replacement is taken as is and its
children are not descended into (the behaviour of a babel enter visitor that
calls `path.replaceWith` followed by `path.skip()`); otherwise the children
are processed. -/
def mapDown (f : Node → Option Node) : Node → Node
  | .numericLiteral v =>
      match f (.numericLiteral v) with
      | some r => r
      | none => .numericLiteral v
  | .stringLiteral v =>
      match f (.stringLiteral v) with
      | some r => r
      | none => .stringLiteral v
  | .booleanLiteral v =>
      match f (.booleanLiteral v) with
      | some r => r
      | none => .booleanLiteral v
  | .identifier n =>
      match f (.identifier n) with
      | some r => r
      | none => .identifier n
  | .arrayExpression es =>
      match f (.arrayExpression es) with
      | some r => r
      | none => .arrayExpression (mapDownList f es)
  | .binaryExpression op l r =>
      match f (.binaryExpression op l r) with
      | some r2 => r2
      | none => .binaryExpression op (mapDown f l) (mapDown f r)
  | .unaryExpression op a =>
      match f (.unaryExpression op a) with
      | some r => r
      | none => .unaryExpression op (mapDown f a)
  | .assignmentExpression l r =>
      match f (.assignmentExpression l r) with
      | some r2 => r2
      | none => .assignmentExpression (mapDown f l) (mapDown f r)
  | .memberExpression o p c =>
      match f (.memberExpression o p c) with
      | some r => r
      | none => .memberExpression (mapDown f o) (mapDown f p) c
  | .callExpression c as =>
      match f (.callExpression c as) with
      | some r => r
      | none => .callExpression (mapDown f c) (mapDownList f as)
  | .sequenceExpression es =>
      match f (.sequenceExpression es) with
      | some r => r
      | none => .sequenceExpression (mapDownList f es)
  | .functionExpression ps b =>
      match f (.functionExpression ps b) with
      | some r => r
      | none => .functionExpression ps (mapDown f b)
  | .conditionalExpression t c a =>
      match f (.conditionalExpression t c a) with
      | some r => r
      | none => .conditionalExpression (mapDown f t) (mapDown f c) (mapDown f a)
  | .expressionStatement e =>
      match f (.expressionStatement e) with
      | some r => r
      | none => .expressionStatement (mapDown f e)
  | .variableDeclarator x init =>
      match f (.variableDeclarator x init) with
      | some r => r
      | none => .variableDeclarator x (mapDownOpt f init)
  | .variableDeclaration k ds =>
      match f (.variableDeclaration k ds) with
      | some r => r
      | none => .variableDeclaration k (mapDownList f ds)
  | .returnStatement a =>
      match f (.returnStatement a) with
      | some r => r
      | none => .returnStatement (mapDownOpt f a)
  | .throwStatement a =>
      match f (.throwStatement a) with
      | some r => r
      | none => .throwStatement (mapDown f a)
  | .ifStatement t c a =>
      match f (.ifStatement t c a) with
      | some r => r
      | none => .ifStatement (mapDown f t) (mapDown f c) (mapDownOpt f a)
  | .switchCase t cs =>
      match f (.switchCase t cs) with
      | some r => r
      | none => .switchCase (mapDownOpt f t) (mapDownList f cs)
  | .switchStatement d cs =>
      match f (.switchStatement d cs) with
      | some r => r
      | none => .switchStatement (mapDown f d) (mapDownList f cs)
  | .forStatement i t u b =>
      match f (.forStatement i t u b) with
      | some r => r
      | none => .forStatement (mapDownOpt f i) (mapDownOpt f t) (mapDownOpt f u) (mapDown f b)
  | .forInStatement l r b =>
      match f (.forInStatement l r b) with
      | some r2 => r2
      | none => .forInStatement (mapDown f l) (mapDown f r) (mapDown f b)
  | .whileStatement t b =>
      match f (.whileStatement t b) with
      | some r => r
      | none => .whileStatement (mapDown f t) (mapDown f b)
  | .blockStatement b =>
      match f (.blockStatement b) with
      | some r => r
      | none => .blockStatement (mapDownList f b)
  | .breakStatement =>
      match f .breakStatement with
      | some r => r
      | none => .breakStatement
  | .continueStatement =>
      match f .continueStatement with
      | some r => r
      | none => .continueStatement
  | .emptyStatement =>
      match f .emptyStatement with
      | some r => r
      | none => .emptyStatement
  | .debuggerStatement =>
      match f .debuggerStatement with
      | some r => r
      | none => .debuggerStatement
  | .functionDeclaration n ps b =>
      match f (.functionDeclaration n ps b) with
      | some r => r
      | none => .functionDeclaration n ps (mapDown f b)

/-- List companion of `mapDown`. -/
def mapDownList (f : Node → Option Node) : List Node → List Node
  | [] => []
  | x :: xs => mapDown f x :: mapDownList f xs

/-- Option companion of `mapDown`. -/
def mapDownOpt (f : Node → Option Node) : Option Node → Option Node
  | none => none
  | some x => some (mapDown f x)

end

mutual

/-- Existential predicate combinator over the AST: does `p` hold at this node
or at any node below it? -/
def anyNode (p : Node → Bool) : Node → Bool
  | .numericLiteral v => p (.numericLiteral v)
  | .stringLiteral v => p (.stringLiteral v)
  | .booleanLiteral v => p (.booleanLiteral v)
  | .identifier n => p (.identifier n)
  | .arrayExpression es => p (.arrayExpression es) || anyNodeList p es
  | .binaryExpression op l r => p (.binaryExpression op l r) || anyNode p l || anyNode p r
  | .unaryExpression op a => p (.unaryExpression op a) || anyNode p a
  | .assignmentExpression l r => p (.assignmentExpression l r) || anyNode p l || anyNode p r
  | .memberExpression o pr c => p (.memberExpression o pr c) || anyNode p o || anyNode p pr
  | .callExpression c as => p (.callExpression c as) || anyNode p c || anyNodeList p as
  | .sequenceExpression es => p (.sequenceExpression es) || anyNodeList p es
  | .functionExpression ps b => p (.functionExpression ps b) || anyNode p b
  | .conditionalExpression t c a =>
      p (.conditionalExpression t c a) || anyNode p t || anyNode p c || anyNode p a
  | .expressionStatement e => p (.expressionStatement e) || anyNode p e
  | .variableDeclarator x init => p (.variableDeclarator x init) || anyNodeOpt p init
  | .variableDeclaration k ds => p (.variableDeclaration k ds) || anyNodeList p ds
  | .returnStatement a => p (.returnStatement a) || anyNodeOpt p a
  | .throwStatement a => p (.throwStatement a) || anyNode p a
  | .ifStatement t c a => p (.ifStatement t c a) || anyNode p t || anyNode p c || anyNodeOpt p a
  | .switchCase t cs => p (.switchCase t cs) || anyNodeOpt p t || anyNodeList p cs
  | .switchStatement d cs => p (.switchStatement d cs) || anyNode p d || anyNodeList p cs
  | .forStatement i t u b =>
      p (.forStatement i t u b) || anyNodeOpt p i || anyNodeOpt p t || anyNodeOpt p u || anyNode p b
  | .forInStatement l r b => p (.forInStatement l r b) || anyNode p l || anyNode p r || anyNode p b
  | .whileStatement t b => p (.whileStatement t b) || anyNode p t || anyNode p b
  | .blockStatement b => p (.blockStatement b) || anyNodeList p b
  | .breakStatement => p .breakStatement
  | .continueStatement => p .continueStatement
  | .emptyStatement => p .emptyStatement
  | .debuggerStatement => p .debuggerStatement
  | .functionDeclaration n ps b => p (.functionDeclaration n ps b) || anyNode p b

/-- List companion of `anyNode`. -/
def anyNodeList (p : Node → Bool) : List Node → Bool
  | [] => false
  | x :: xs => anyNode p x || anyNodeList p xs

/-- Option companion of `anyNode`. -/
def anyNodeOpt (p : Node → Bool) : Option Node → Bool
  | none => false
  | some x => anyNode p x

end

/-- Does the tree contain an identifier node anywhere? -/
def containsIdentifier : Node → Bool :=
  anyNode isIdentifier

/-- One rewrite step of the binary pass of `calcBinary`
(packages/tool/src/utils/ast.ts, `transformConcatenated`, lines 1358-1373):
on a binary expression, return unchanged if an operand is an identifier;
if both operands are literals, evaluate and replace with `valueToNode` of the
value when the evaluation is confident; otherwise leave the node unchanged.
Other node kinds are untouched. -/
def foldStep (n : Node) : Node :=
  match n with
  | .binaryExpression op l r =>
      if isIdentifier l || isIdentifier r then .binaryExpression op l r
      else if isLiteral l && isLiteral r then
        match evaluateNode (.binaryExpression op l r) with
        | some v => valueToNode v
        | none => .binaryExpression op l r
      else .binaryExpression op l r
  | m => m

/-- The binary pass of `calcBinary`: the source visits every
`BinaryExpression`, folds it when both operands are literals, and then walks
`path.parentPath` to fold newly enabled parents, skipping re-descent; the net
effect is the bottom-up application of `foldStep` at every node. -/
def foldBinaries : Node → Node :=
  mapUp foldStep

/-- One rewrite step of the unary pass of `calcBinary`
(packages/tool/src/utils/ast.ts, lines 1383-1413): on a `!` unary expression,
`!<unary over an empty array>` becomes `true`, `![]` becomes `false`, `!0`
becomes `true`, `!1` becomes `false`; everything else is untouched.  The
first branch mirrors the source, which tests only
`isUnaryExpression(argument)` without constraining the inner operator. -/
def unaryBoolStep : Node → Option Node
  | .unaryExpression .bang (.unaryExpression _ (.arrayExpression [])) =>
      some (.booleanLiteral true)
  | .unaryExpression .bang (.arrayExpression []) => some (.booleanLiteral false)
  | .unaryExpression .bang (.numericLiteral 0) => some (.booleanLiteral true)
  | .unaryExpression .bang (.numericLiteral 1) => some (.booleanLiteral false)
  | _ => none

/-- Model of `calcBinary` (packages/tool/src/utils/ast.ts, lines 1356-1416):
the binary-literal folding traversal, a `reParse` (identity on the tree), and
the boolean-pattern unary traversal. -/
def calcBinary (n : Node) : Node :=
  mapDown unaryBoolStep (foldBinaries n)

/-- One rewrite step of `removeSelfCallFn`
(packages/tool/src/utils/ast.ts, lines 1220-1237): an expression statement
whose expression is a unary expression over a call of a function expression
with zero arguments is replaced by the function body (a block statement),
and the source then calls `path.skip()`. -/
def selfCallStep : Node → Option Node
  | .expressionStatement (.unaryExpression _ (.callExpression (.functionExpression _ b) [])) =>
      some b
  | _ => none

/-- Model of `removeSelfCallFn`: the traversal applying `selfCallStep` with
skip semantics (the hoisted body is not re-visited in the same run). -/
def removeSelfCallFn : Node → Node :=
  mapDown selfCallStep

/-- Decompose a list into its leading part and its last element, the shape a
JS `expressions.pop()` leaves behind (`none` on the empty list, where the
source would read `undefined`). -/
def splitLast (es : List Node) : Option (List Node × Node) :=
  match es.getLast? with
  | some l => some (es.dropLast, l)
  | none => none

/-- Model of the `sequence` transform
(packages/tool/src/transforms/sequence.ts): the action of one exit visit on a
statement, returning the statements that take its place in the enclosing
container (statements inserted before it, then the rewritten node).  Each
match arm is one visitor of the source; a statement no visitor rewrites maps
to itself.  The special insertion target for a declaration that is a for-init
is not modelled (the modelled statements sit in ordinary statement lists). -/
def sequenceExit (n : Node) : List Node :=
  match n with
  | .expressionStatement (.sequenceExpression es) =>
      es.map .expressionStatement
  | .returnStatement (some (.sequenceExpression es)) =>
      es.dropLast.map .expressionStatement ++ [.returnStatement es.getLast?]
  | .returnStatement (some (.unaryExpression .voidOp (.sequenceExpression es))) =>
      es.map .expressionStatement ++ [.returnStatement none]
  | .ifStatement (.sequenceExpression es) c a =>
      match splitLast es with
      | some (front, last) => front.map .expressionStatement ++ [.ifStatement last c a]
      | none => [.ifStatement (.sequenceExpression es) c a]
  | .switchStatement (.sequenceExpression es) cs =>
      match splitLast es with
      | some (front, last) => front.map .expressionStatement ++ [.switchStatement last cs]
      | none => [.switchStatement (.sequenceExpression es) cs]
  | .throwStatement (.sequenceExpression es) =>
      match splitLast es with
      | some (front, last) => front.map .expressionStatement ++ [.throwStatement last]
      | none => [.throwStatement (.sequenceExpression es)]
  | .forInStatement l (.sequenceExpression es) b =>
      match splitLast es with
      | some (front, last) => front.map .expressionStatement ++ [.forInStatement l last b]
      | none => [.forInStatement l (.sequenceExpression es) b]
  | .forStatement i t u b =>
      let pre :=
        match i with
        | some (.sequenceExpression es) => es.map Node.expressionStatement
        | _ => []
      let i2 : Option Node :=
        match i with
        | some (.sequenceExpression _) => none
        | _ => i
      let ub : Option Node × Node :=
        match u, b with
        | some (.sequenceExpression es), .emptyStatement =>
            (es.getLast?, .blockStatement (es.dropLast.map Node.expressionStatement))
        | u2, b2 => (u2, b2)
      pre ++ [.forStatement i2 t ub.1 ub.2]
  | .variableDeclaration k [.variableDeclarator x (some (.sequenceExpression es))] =>
      es.dropLast.map .expressionStatement
        ++ [.variableDeclaration k [.variableDeclarator x es.getLast?]]
  | other => [other]

/-- Claim-side rendering of the specification sentence for a sequence
expression in a for-statement init: every leading sub-expression becomes its
own preceding statement and the final sub-expression stays in the init role.
Written from the wording of the specification, to be compared with the
behaviour of `sequenceExit`. -/
def sequenceClaimForInit : Node → List Node
  | .forStatement (some (.sequenceExpression es)) t u b =>
      match splitLast es with
      | some (front, last) => front.map .expressionStatement ++ [.forStatement (some last) t u b]
      | none => [.forStatement (some (.sequenceExpression es)) t u b]
  | n => [n]

mutual

/-- Substitution of a node for the references of a name, the effect of
`binding.referencePaths.forEach(r => r.replaceWith(value))` in
`replaceConstant`: identifier occurrences are replaced except non-computed
member properties, which babel records as member keys rather than reference
paths.  `replaceConstant` substitutes only under a constant binding, so no
assignment target carrying the name exists in its inputs.  The model is
scope free: shadowing bindings inside nested functions are not tracked. -/
def substIdent (x : String) (v : Node) : Node → Node
  | .numericLiteral w => .numericLiteral w
  | .stringLiteral w => .stringLiteral w
  | .booleanLiteral w => .booleanLiteral w
  | .identifier m => if m = x then v else .identifier m
  | .arrayExpression es => .arrayExpression (substIdentList x v es)
  | .binaryExpression op l r => .binaryExpression op (substIdent x v l) (substIdent x v r)
  | .unaryExpression op a => .unaryExpression op (substIdent x v a)
  | .assignmentExpression l r => .assignmentExpression (substIdent x v l) (substIdent x v r)
  | .memberExpression o p c =>
      .memberExpression (substIdent x v o) (if c then substIdent x v p else p) c
  | .callExpression c as => .callExpression (substIdent x v c) (substIdentList x v as)
  | .sequenceExpression es => .sequenceExpression (substIdentList x v es)
  | .functionExpression ps b => .functionExpression ps (substIdent x v b)
  | .conditionalExpression t c a =>
      .conditionalExpression (substIdent x v t) (substIdent x v c) (substIdent x v a)
  | .expressionStatement e => .expressionStatement (substIdent x v e)
  | .variableDeclarator y init => .variableDeclarator y (substIdentOpt x v init)
  | .variableDeclaration k ds => .variableDeclaration k (substIdentList x v ds)
  | .returnStatement a => .returnStatement (substIdentOpt x v a)
  | .throwStatement a => .throwStatement (substIdent x v a)
  | .ifStatement t c a => .ifStatement (substIdent x v t) (substIdent x v c) (substIdentOpt x v a)
  | .switchCase t cs => .switchCase (substIdentOpt x v t) (substIdentList x v cs)
  | .switchStatement d cs => .switchStatement (substIdent x v d) (substIdentList x v cs)
  | .forStatement i t u b =>
      .forStatement (substIdentOpt x v i) (substIdentOpt x v t) (substIdentOpt x v u)
        (substIdent x v b)
  | .forInStatement l r b =>
      .forInStatement (substIdent x v l) (substIdent x v r) (substIdent x v b)
  | .whileStatement t b => .whileStatement (substIdent x v t) (substIdent x v b)
  | .blockStatement b => .blockStatement (substIdentList x v b)
  | .breakStatement => .breakStatement
  | .continueStatement => .continueStatement
  | .emptyStatement => .emptyStatement
  | .debuggerStatement => .debuggerStatement
  | .functionDeclaration n ps b => .functionDeclaration n ps (substIdent x v b)

/-- List companion of `substIdent`. -/
def substIdentList (x : String) (v : Node) : List Node → List Node
  | [] => []
  | e :: es => substIdent x v e :: substIdentList x v es

/-- Option companion of `substIdent`. -/
def substIdentOpt (x : String) (v : Node) : Option Node → Option Node
  | none => none
  | some e => some (substIdent x v e)

end

mutual

/-- Does the tree contain a reference (a babel `referencePath`) to the name?
Identifier occurrences count except in the non-reference position excluded
by `substIdent`, a non-computed member property. -/
def refersTo (x : String) : Node → Bool
  | .numericLiteral _ => false
  | .stringLiteral _ => false
  | .booleanLiteral _ => false
  | .identifier m => m = x
  | .arrayExpression es => refersToList x es
  | .binaryExpression _ l r => refersTo x l || refersTo x r
  | .unaryExpression _ a => refersTo x a
  | .assignmentExpression l r => refersTo x l || refersTo x r
  | .memberExpression o p c => refersTo x o || (c && refersTo x p)
  | .callExpression c as => refersTo x c || refersToList x as
  | .sequenceExpression es => refersToList x es
  | .functionExpression _ b => refersTo x b
  | .conditionalExpression t c a => refersTo x t || refersTo x c || refersTo x a
  | .expressionStatement e => refersTo x e
  | .variableDeclarator _ init => refersToOpt x init
  | .variableDeclaration _ ds => refersToList x ds
  | .returnStatement a => refersToOpt x a
  | .throwStatement a => refersTo x a
  | .ifStatement t c a => refersTo x t || refersTo x c || refersToOpt x a
  | .switchCase t cs => refersToOpt x t || refersToList x cs
  | .switchStatement d cs => refersTo x d || refersToList x cs
  | .forStatement i t u b => refersToOpt x i || refersToOpt x t || refersToOpt x u || refersTo x b
  | .forInStatement l r b => refersTo x l || refersTo x r || refersTo x b
  | .whileStatement t b => refersTo x t || refersTo x b
  | .blockStatement b => refersToList x b
  | .breakStatement => false
  | .continueStatement => false
  | .emptyStatement => false
  | .debuggerStatement => false
  | .functionDeclaration _ _ b => refersTo x b

/-- List companion of `refersTo`. -/
def refersToList (x : String) : List Node → Bool
  | [] => false
  | e :: es => refersTo x e || refersToList x es

/-- Option companion of `refersTo`. -/
def refersToOpt (x : String) : Option Node → Bool
  | none => false
  | some e => refersTo x e

end

/-- Does the tree assign to the name (a babel `constantViolation` in the
modelled AST, whose only violation form is an assignment expression with the
bare identifier as target)? -/
def assignsToName (x : String) : Node → Bool :=
  anyNode fun n =>
    match n with
    | .assignmentExpression (.identifier m) _ => m = x
    | _ => false

/-- Model of `replaceConstant` (packages/tool/src/utils/ast.ts,
lines 1315-1347) at the program level, for flat single-declarator
declarations (the pipeline splits multi-declarator declarations first).  The
traversal visits declarators in program order; for a declarator whose init is
a string or numeric literal and whose binding is constant
(`binding.constant && binding.constantViolations.length === 0`, modelled as
the absence of assignments to the name in the following statements), every
reference is replaced with the literal and the declaration is removed.
Substituted statements further down are then seen in their substituted form,
as in the source traversal.  The fuel argument counts the statements still to
visit (substitution preserves the length, so the fuel never runs out on the
top-level call). -/
def replaceConstantGo : Nat → List Node → List Node
  | _, [] => []
  | fuel + 1, s :: rest =>
      match s with
      | .variableDeclaration k [.variableDeclarator x (some init)] =>
          if (isStringLiteral init || isNumericLiteral init)
              && !(rest.any (assignsToName x)) then
            replaceConstantGo fuel (rest.map (substIdent x init))
          else
            .variableDeclaration k [.variableDeclarator x (some init)]
              :: replaceConstantGo fuel rest
      | s2 => s2 :: replaceConstantGo fuel rest
  | 0, l => l

/-- Model of `replaceConstant` at the program level: run the traversal with
one unit of fuel per statement. -/
def replaceConstant (prog : List Node) : List Node :=
  replaceConstantGo prog.length prog

/-- The `replace` helper of `removeUnusedBlock`
(packages/tool/src/utils/ast.ts, lines 1478-1483): a block statement is
spliced into the parent container (`replaceWithMultiple(node.body)`), any
other node replaces the statement directly. -/
def removeUnusedBlockReplace (node : Node) : List Node :=
  match node with
  | .blockStatement body => body
  | other => [other]

/-- The `process` function of `removeUnusedBlock` on an if statement
(lines 1488-1522): the consequent is taken only when `evaluateTruthy` on the
test returns `true`; otherwise (constant falsy or not confident alike, since
the source tests the raw return of `evaluateTruthy()`) the alternate replaces
the node when present and the node is removed when absent.  The alpha
renaming of conflicting inner bindings is the identity on the
declaration-free branches used below. -/
def removeUnusedBlockIf (n : Node) : List Node :=
  match n with
  | .ifStatement t c a =>
      if evaluateTruthy t = some true then removeUnusedBlockReplace c
      else
        match a with
        | some alt => removeUnusedBlockReplace alt
        | none => []
  | m => [m]

/-- The `process` function of `removeUnusedBlock` on a conditional
expression: a conditional always has an alternate, so the not-taken branch is
never removed. -/
def removeUnusedBlockCond (n : Node) : Node :=
  match n with
  | .conditionalExpression t c a =>
      if evaluateTruthy t = some true then c else a
  | m => m

mutual

/-- Exit-order traversal of `removeUnusedBlock` over a statement list: the
children of each statement are processed first, then the statement itself
through `removeUnusedBlockIf`, splicing its replacement into the list. -/
def removeUnusedBlockStmts : List Node → List Node
  | [] => []
  | s :: rest => removeUnusedBlockIf (removeUnusedBlockNode s) ++ removeUnusedBlockStmts rest

/-- Exit-order traversal of `removeUnusedBlock` inside one node: recurse into
children, rewriting conditional expressions in place and statement lists
through `removeUnusedBlockStmts`.  An if statement in a non-list position
(where `replaceWithMultiple` has no container) is left to its enclosing
list. -/
def removeUnusedBlockNode : Node → Node
  | .numericLiteral v => .numericLiteral v
  | .stringLiteral v => .stringLiteral v
  | .booleanLiteral v => .booleanLiteral v
  | .identifier n => .identifier n
  | .arrayExpression es => .arrayExpression (removeUnusedBlockList es)
  | .binaryExpression op l r =>
      .binaryExpression op (removeUnusedBlockNode l) (removeUnusedBlockNode r)
  | .unaryExpression op a => .unaryExpression op (removeUnusedBlockNode a)
  | .assignmentExpression l r =>
      .assignmentExpression (removeUnusedBlockNode l) (removeUnusedBlockNode r)
  | .memberExpression o p c =>
      .memberExpression (removeUnusedBlockNode o) (removeUnusedBlockNode p) c
  | .callExpression c as => .callExpression (removeUnusedBlockNode c) (removeUnusedBlockList as)
  | .sequenceExpression es => .sequenceExpression (removeUnusedBlockList es)
  | .functionExpression ps b => .functionExpression ps (removeUnusedBlockNode b)
  | .conditionalExpression t c a =>
      removeUnusedBlockCond (.conditionalExpression (removeUnusedBlockNode t)
        (removeUnusedBlockNode c) (removeUnusedBlockNode a))
  | .expressionStatement e => .expressionStatement (removeUnusedBlockNode e)
  | .variableDeclarator x init => .variableDeclarator x (removeUnusedBlockOpt init)
  | .variableDeclaration k ds => .variableDeclaration k (removeUnusedBlockList ds)
  | .returnStatement a => .returnStatement (removeUnusedBlockOpt a)
  | .throwStatement a => .throwStatement (removeUnusedBlockNode a)
  | .ifStatement t c a =>
      .ifStatement (removeUnusedBlockNode t) (removeUnusedBlockNode c) (removeUnusedBlockOpt a)
  | .switchCase t cs => .switchCase (removeUnusedBlockOpt t) (removeUnusedBlockStmts cs)
  | .switchStatement d cs => .switchStatement (removeUnusedBlockNode d) (removeUnusedBlockList cs)
  | .forStatement i t u b =>
      .forStatement (removeUnusedBlockOpt i) (removeUnusedBlockOpt t) (removeUnusedBlockOpt u)
        (removeUnusedBlockNode b)
  | .forInStatement l r b =>
      .forInStatement (removeUnusedBlockNode l) (removeUnusedBlockNode r)
        (removeUnusedBlockNode b)
  | .whileStatement t b => .whileStatement (removeUnusedBlockNode t) (removeUnusedBlockNode b)
  | .blockStatement b => .blockStatement (removeUnusedBlockStmts b)
  | .breakStatement => .breakStatement
  | .continueStatement => .continueStatement
  | .emptyStatement => .emptyStatement
  | .debuggerStatement => .debuggerStatement
  | .functionDeclaration n ps b => .functionDeclaration n ps (removeUnusedBlockNode b)

/-- List companion of `removeUnusedBlockNode` for expression lists (not
statement containers). -/
def removeUnusedBlockList : List Node → List Node
  | [] => []
  | e :: es => removeUnusedBlockNode e :: removeUnusedBlockList es

/-- Option companion of `removeUnusedBlockNode`. -/
def removeUnusedBlockOpt : Option Node → Option Node
  | none => none
  | some e => some (removeUnusedBlockNode e)

end

/-- Matcher for the alphabet pattern of `controlFlowFlat`
(packages/tool/src/utils/ast.ts, lines 1133-1153): a member expression whose
object is a string literal and whose property (string literal or identifier)
names `split`; returns the alphabet string. -/
def isSplitOfString : Node → Option String
  | .memberExpression (.stringLiteral s) (.stringLiteral pn) _ =>
      if pn = "split" then some s else none
  | .memberExpression (.stringLiteral s) (.identifier pn) _ =>
      if pn = "split" then some s else none
  | _ => none

mutual

/-- First match of an Option-valued matcher in depth-first pre-order, the
order of a babel enter visitor with `path.stop()` at the first hit. -/
def findFirstStr (p : Node → Option String) : Node → Option String
  | .numericLiteral v => p (.numericLiteral v)
  | .stringLiteral v => p (.stringLiteral v)
  | .booleanLiteral v => p (.booleanLiteral v)
  | .identifier n => p (.identifier n)
  | .arrayExpression es => p (.arrayExpression es) <|> findFirstStrList p es
  | .binaryExpression op l r =>
      p (.binaryExpression op l r) <|> findFirstStr p l <|> findFirstStr p r
  | .unaryExpression op a => p (.unaryExpression op a) <|> findFirstStr p a
  | .assignmentExpression l r =>
      p (.assignmentExpression l r) <|> findFirstStr p l <|> findFirstStr p r
  | .memberExpression o pr c =>
      p (.memberExpression o pr c) <|> findFirstStr p o <|> findFirstStr p pr
  | .callExpression c as => p (.callExpression c as) <|> findFirstStr p c <|> findFirstStrList p as
  | .sequenceExpression es => p (.sequenceExpression es) <|> findFirstStrList p es
  | .functionExpression ps b => p (.functionExpression ps b) <|> findFirstStr p b
  | .conditionalExpression t c a =>
      p (.conditionalExpression t c a) <|> findFirstStr p t <|> findFirstStr p c
        <|> findFirstStr p a
  | .expressionStatement e => p (.expressionStatement e) <|> findFirstStr p e
  | .variableDeclarator x init => p (.variableDeclarator x init) <|> findFirstStrOpt p init
  | .variableDeclaration k ds => p (.variableDeclaration k ds) <|> findFirstStrList p ds
  | .returnStatement a => p (.returnStatement a) <|> findFirstStrOpt p a
  | .throwStatement a => p (.throwStatement a) <|> findFirstStr p a
  | .ifStatement t c a =>
      p (.ifStatement t c a) <|> findFirstStr p t <|> findFirstStr p c <|> findFirstStrOpt p a
  | .switchCase t cs => p (.switchCase t cs) <|> findFirstStrOpt p t <|> findFirstStrList p cs
  | .switchStatement d cs =>
      p (.switchStatement d cs) <|> findFirstStr p d <|> findFirstStrList p cs
  | .forStatement i t u b =>
      p (.forStatement i t u b) <|> findFirstStrOpt p i <|> findFirstStrOpt p t
        <|> findFirstStrOpt p u <|> findFirstStr p b
  | .forInStatement l r b =>
      p (.forInStatement l r b) <|> findFirstStr p l <|> findFirstStr p r <|> findFirstStr p b
  | .whileStatement t b => p (.whileStatement t b) <|> findFirstStr p t <|> findFirstStr p b
  | .blockStatement b => p (.blockStatement b) <|> findFirstStrList p b
  | .breakStatement => p .breakStatement
  | .continueStatement => p .continueStatement
  | .emptyStatement => p .emptyStatement
  | .debuggerStatement => p .debuggerStatement
  | .functionDeclaration n ps b => p (.functionDeclaration n ps b) <|> findFirstStr p b

/-- List companion of `findFirstStr`. -/
def findFirstStrList (p : Node → Option String) : List Node → Option String
  | [] => none
  | e :: es => findFirstStr p e <|> findFirstStrList p es

/-- Option companion of `findFirstStr`. -/
def findFirstStrOpt (p : Node → Option String) : Option Node → Option String
  | none => none
  | some e => findFirstStr p e

end

/-- The alphabet search of `controlFlowFlat` over the statements of the
enclosing function block: the first `"..."["split"]` member in traversal
order. -/
def findSplitStrList (body : List Node) : Option String :=
  findFirstStrList isSplitOfString body

/-- Does the declarator (or anything below it) contain the split-alphabet
pattern?  Used to model the removal of the enclosing `VariableDeclarator` of
the matched member (`VariableDeclarator.remove()` in the source). -/
def declaratorHasSplit (d : Node) : Bool :=
  anyNode (fun m => (isSplitOfString m).isSome) d

/-- Removal of the alphabet declarator from the function block: in each
top-level declaration, declarators containing the split pattern are dropped,
and a declaration left with no declarators disappears (babel removes the
parent declaration together with its only declarator).  The source removes
only the declarator enclosing the first match; the modelled bodies contain
one occurrence. -/
def removeSplitDeclStmts (body : List Node) : List Node :=
  body.filterMap fun s =>
    match s with
    | .variableDeclaration k ds =>
        let ds2 := ds.filter fun d => !declaratorHasSplit d
        if ds2.isEmpty then none else some (.variableDeclaration k ds2)
    | s2 => some s2

/-- The switch cases found inside a statement list (the loop body block). -/
def switchCasesOfStmts (stmts : List Node) : Option (List Node) :=
  stmts.findSome? fun s =>
    match s with
    | .switchStatement _ cs => some cs
    | _ => none

/-- A while or for statement whose block body contains a switch: the shape in
which the `SwitchStatement` visitor of `controlFlowFlat` fires (the switch
sits in the body block of a loop ancestor). -/
def loopSwitchCases : Node → Option (List Node)
  | .whileStatement _ (.blockStatement stmts) => switchCasesOfStmts stmts
  | .forStatement _ _ _ (.blockStatement stmts) => switchCasesOfStmts stmts
  | _ => none

/-- The `myArr` computation of `controlFlowFlat` (lines 1160-1162): keep the
cases with a string-literal test and take the first statement of each
consequent (`p.consequent[0]`, `none` when the consequent is empty, where the
source reads `undefined`). -/
def switchCaseLeads (cases : List Node) : List (Option Node) :=
  (cases.filter fun c =>
    match c with
    | .switchCase (some (.stringLiteral _)) _ => true
    | _ => false).map fun c =>
    match c with
    | .switchCase _ conseq => conseq.head?
    | _ => none

/-- The `sequences` computation of `controlFlowFlat` (lines 1164-1166): index
the lead statements by each alphabet entry (JS coerces the string to a
number) and drop entries whose statement is a continue statement.  Entries
that index out of range or hit an empty consequent are dropped here; in the
source they stay as `undefined` and break code generation, so the modelled
inputs keep indices in range. -/
def flatSequences (shuffer : List String) (leads : List (Option Node)) : List Node :=
  shuffer.filterMap fun s =>
    match jsToNat? s with
    | some i =>
        match leads.get? i with
        | some (some st) =>
            match st with
            | .continueStatement => none
            | st2 => some st2
        | some none => none
        | none => none
    | none => none

/-- Model of the `SwitchStatement` visitor of `controlFlowFlat`
(packages/tool/src/utils/ast.ts, lines 1119-1176) on a function block body
containing the flattening idiom: find the loop-with-switch and the split
alphabet, delete the alphabet declarator, push the reordered lead statements
at the end of the block (`fnBlockStatementPath.node.body.push(...)`), and
remove the loop. -/
def controlFlowFlatBody (body : List Node) : List Node :=
  match body.findSome? loopSwitchCases with
  | none => body
  | some cases =>
      match findSplitStrList body with
      | none => body
      | some alpha =>
          let shuffer := jsSplit '|' alpha
          let seqs := flatSequences shuffer (switchCaseLeads cases)
          let body1 := removeSplitDeclStmts body
          let body2 := body1.filter fun s => (loopSwitchCases s).isNone
          body2 ++ seqs

/-- Claim-side rendering of the specification sentences for `controlFlowFlat`:
the cases are reordered by the split alphabet, cases whose only body is a
continue statement are dropped, every emitted case contributes all of its
statements (with the trailing continue removed, as in the specification
example), the resulting statements take the place of the loop, and the
alphabet declarator is deleted.  Written from the wording of the
specification, to be compared with `controlFlowFlatBody`. -/
def controlFlowFlatClaimBody (body : List Node) : List Node :=
  match body.findSome? loopSwitchCases with
  | none => body
  | some cases =>
      match findSplitStrList body with
      | none => body
      | some alpha =>
          let shuffer := jsSplit '|' alpha
          let stringCases := cases.filter fun c =>
            match c with
            | .switchCase (some (.stringLiteral _)) _ => true
            | _ => false
          let caseStmts : List (List Node) := stringCases.map fun c =>
            match c with
            | .switchCase _ conseq => conseq
            | _ => []
          let seqs := shuffer.flatMap fun s =>
            match jsToNat? s with
            | some i =>
                match caseStmts.get? i with
                | some conseq =>
                    match conseq with
                    | [.continueStatement] => []
                    | _ => conseq.filter fun st =>
                        match st with
                        | .continueStatement => false
                        | _ => true
                | none => []
            | none => []
          let body1 := removeSplitDeclStmts body
          body1.flatMap fun s =>
            if (loopSwitchCases s).isSome then seqs else [s]

/-- Candidate decoder names contributed by one program-level statement in
`findDecryptFnByCallCount` (packages/tool/src/utils/ast.ts, lines 422-434):
the name of a function declaration, and the declarator names of function
expressions that initialise variable declarators. -/
def decryptCandidates : Node → List String
  | .functionDeclaration name _ _ => [name]
  | .variableDeclaration _ ds =>
      ds.filterMap fun d =>
        match d with
        | .variableDeclarator x (some (.functionExpression _ _)) => some x
        | _ => none
  | _ => []

/-- The body of the index-update loop of `findDecryptFnByCallCount`
(lines 410-416), with `i` the running position: set `index = i + 1` at every
statement whose start offset matches the classified declaration (the last
match wins). -/
def scanIndexGo (start : Nat) : Nat → Nat → List (Nat × Node) → Nat
  | _, index, [] => index
  | i, index, st :: rest =>
      scanIndexGo start (i + 1) (if st.1 = start then i + 1 else index) rest

/-- The index-update loop of `findDecryptFnByCallCount`, started at position
zero over the whole program body. -/
def scanIndexLoop (body : List (Nat × Node)) (start : Nat) (index : Nat) : Nat :=
  scanIndexGo start 0 index body

/-- Model of `findDecryptFnByCallCount` (packages/tool/src/utils/ast.ts,
lines 382-445) on a program body given as statements with their start
offsets: walk the body in program order; each program-level function
declaration or function-expression declarator whose reference count (the
length of `binding.referencePaths`, supplied as `refCount`) reaches the
threshold is pushed on the decoder list, and the statement index just past
its declaration is recorded through the start-offset scan.  Returns the
decoder list and the final index. -/
def findDecryptGo (count : Nat) (refCount : String → Nat) (body : List (Nat × Node)) :
    List (Nat × Node) → List String × Nat → List String × Nat
  | [], acc => acc
  | st :: rest, acc =>
      findDecryptGo count refCount body rest
        ((decryptCandidates st.2).foldl
          (fun acc2 name =>
            if refCount name ≥ count then
              (acc2.1 ++ [name], scanIndexLoop body st.1 acc2.2)
            else acc2)
          acc)

/-- The traversal of `findDecryptFnByCallCount` over the whole program body,
starting from the empty decoder list and index zero. -/
def findDecryptFnByCallCount (count : Nat) (refCount : String → Nat)
    (body : List (Nat × Node)) : List String × Nat :=
  findDecryptGo count refCount body body ([], 0)

/-- The setup-code extraction of `findDecryptFnByCallCount` (lines 436-444):
the program prefix up to the recorded index is the decrypt setup code, and
with `isRemove` the program body is sliced past it. -/
def findDecryptSetup (count : Nat) (refCount : String → Nat)
    (body : List (Nat × Node)) (isRemove : Bool) :
    List String × List (Nat × Node) × List (Nat × Node) :=
  let r := findDecryptFnByCallCount count refCount body
  (r.1, body.take r.2, if isRemove then body.drop r.2 else body)

/-- Result of one `CallExpression` visit of `decryptReplace`: the node left
in place or substituted, the leading comment added on failure, and whether
the site was recorded in the success map (`map.set`). -/
structure DecryptOutcome where
  node : Node
  leadingComment : Option String
  recorded : Bool
  deriving Repr

/-- Model of the `CallExpression` visitor of `decryptReplace`
(packages/tool/src/utils/ast.ts, lines 340-369).  The decoder evaluation
(`eval(path.toString())`) is abstracted as `evalDecrypt`, which returns the
decoded string or throws with a message.  A call whose callee is not a
listed decoder identifier is skipped; a decoder call with an identifier
among its arguments returns before evaluating; otherwise a successful
evaluation records the site and substitutes a string literal, and a thrown
evaluation leaves the call and adds the leading failure comment. -/
def decryptReplaceCall (decryptFnList : List String)
    (evalDecrypt : Node → Except String String) (node : Node) : DecryptOutcome :=
  match node with
  | .callExpression (.identifier name) args =>
      if name ∈ decryptFnList then
        if args.any isIdentifier then
          ⟨.callExpression (.identifier name) args, none, false⟩
        else
          match evalDecrypt (.callExpression (.identifier name) args) with
          | .ok s => ⟨.stringLiteral s, none, true⟩
          | .error msg => ⟨.callExpression (.identifier name) args, some ("解密失败: " ++ msg), false⟩
      else ⟨.callExpression (.identifier name) args, none, false⟩
  | m => ⟨m, none, false⟩

/-- Shorthand for a bare call statement `f();`. -/
def callStmt (f : String) : Node :=
  .expressionStatement (.callExpression (.identifier f) [])

/-- The statement `if(false){x()}else{y()}` of the specification scenario. -/
def ifFalseExample : Node :=
  .ifStatement (.booleanLiteral false)
    (.blockStatement [callStmt "x"])
    (some (.blockStatement [callStmt "y"]))

/-- An if statement whose test is a plain variable, so that `evaluateTruthy`
is not confident: `if(cond){a()}else{b()}`. -/
def ifUnknownExample : Node :=
  .ifStatement (.identifier "cond")
    (.blockStatement [callStmt "a"])
    (some (.blockStatement [callStmt "b"]))

/-- The program `let a = "debugger"; f(a);` of the specification scenario. -/
def constProgramExample : List Node :=
  [.variableDeclaration "let" [.variableDeclarator "a" (some (.stringLiteral "debugger"))],
   .expressionStatement (.callExpression (.identifier "f") [.identifier "a"])]

/-- The control-flow-flattening scenario of the specification: a function
body with `var o = "1|3|2|0"["split"]("|"), i = 0;` and a while-true loop
switching over `o[i++]` with four string-labelled cases. -/
def cffCaseZero : Node :=
  .switchCase (some (.stringLiteral "0")) [.returnStatement (some (.identifier "x"))]

/-- Case `"1"` of the scenario: a guard that may return, then continue. -/
def cffCaseOne : Node :=
  .switchCase (some (.stringLiteral "1"))
    [.ifStatement
        (.binaryExpression .neqStrict (.identifier "t") (.stringLiteral "link"))
        (.blockStatement [.returnStatement none]) none,
     .continueStatement]

/-- Case `"2"` of the scenario: a member assignment, then continue. -/
def cffCaseTwo : Node :=
  .switchCase (some (.stringLiteral "2"))
    [.expressionStatement (.assignmentExpression
        (.memberExpression (.identifier "x") (.stringLiteral "charset") true)
        (.stringLiteral "utf-8")),
     .continueStatement]

/-- Case `"3"` of the scenario: a declaration, then continue. -/
def cffCaseThree : Node :=
  .switchCase (some (.stringLiteral "3"))
    [.variableDeclaration "var"
        [.variableDeclarator "x" (some (.callExpression (.identifier "d") [.identifier "t"]))],
     .continueStatement]

/-- The alphabet declaration of the scenario:
`var o = "1|3|2|0"["split"]("|"), i = 0;`. -/
def cffAlphabetDecl : Node :=
  .variableDeclaration "var"
    [.variableDeclarator "o" (some (.callExpression
        (.memberExpression (.stringLiteral "1|3|2|0") (.stringLiteral "split") true)
        [.stringLiteral "|"])),
     .variableDeclarator "i" (some (.numericLiteral 0))]

/-- The loop of the scenario: `while(true){ switch(o[i]){...} break; }`. -/
def cffLoop : Node :=
  .whileStatement (.booleanLiteral true)
    (.blockStatement
      [.switchStatement (.memberExpression (.identifier "o") (.identifier "i") true)
          [cffCaseZero, cffCaseOne, cffCaseTwo, cffCaseThree],
       .breakStatement])

/-- The function block body of the control-flow scenario. -/
def cffScenarioBody : List Node :=
  [cffAlphabetDecl, cffLoop]

/-- A flattening-idiom body with a single case whose consequent holds two
statements before its continue: `case "0": a(); b(); continue;` under the
alphabet `"0"`. -/
def cffTwoStmtBody : List Node :=
  [.variableDeclaration "var"
      [.variableDeclarator "o" (some (.callExpression
          (.memberExpression (.stringLiteral "0") (.stringLiteral "split") true)
          [.stringLiteral "|"]))],
   .whileStatement (.booleanLiteral true)
      (.blockStatement
        [.switchStatement (.identifier "k")
            [.switchCase (some (.stringLiteral "0"))
               [callStmt "a", callStmt "b", .continueStatement]],
         .breakStatement])]

/-- The for statement `for(a = 1, b = 2;;){ break; }`, whose init is a
two-expression sequence. -/
def forInitSeqExample : Node :=
  .forStatement
    (some (.sequenceExpression
      [.assignmentExpression (.identifier "a") (.numericLiteral 1),
       .assignmentExpression (.identifier "b") (.numericLiteral 2)]))
    none none (.blockStatement [.breakStatement])

/-- The statement `a = 1, b = 2;` of the specification scenario. -/
def seqStmtExample : Node :=
  .expressionStatement (.sequenceExpression
    [.assignmentExpression (.identifier "a") (.numericLiteral 1),
     .assignmentExpression (.identifier "b") (.numericLiteral 2)])

/-- The self-call statement `!function(){a()}();` of the specification
scenario. -/
def bangSelfCallExample : Node :=
  .expressionStatement (.unaryExpression .bang
    (.callExpression (.functionExpression [] (.blockStatement [callStmt "a"])) []))

/-- The bare self-call statement `(function(){a()})();`: an expression
statement whose expression is the call itself, with no wrapping unary
operator. -/
def bareSelfCallExample : Node :=
  .expressionStatement
    (.callExpression (.functionExpression [] (.blockStatement [callStmt "a"])) [])

/-- A nested self-call statement: `!function(){ !function(){a()}(); }();`. -/
def nestedSelfCallExample : Node :=
  .expressionStatement (.unaryExpression .bang
    (.callExpression
      (.functionExpression [] (.blockStatement [bangSelfCallExample])) []))

/-- Does one statement of the program body contribute a candidate above the
reference-count threshold in `findDecryptFnByCallCount`? -/
def decoderQualifies (count : Nat) (refCount : String → Nat) (st : Nat × Node) : Bool :=
  (decryptCandidates st.2).any fun nm => decide (refCount nm ≥ count)

/-- Specification-side index: the position of the last statement, counting
from `j`, that contributes a decoder candidate above the threshold.  The
claim states that the setup prefix ends immediately after the last
classified declaration; the theorem below shows the start-offset scan of the
source computes exactly this position. -/
def lastQualIdx (count : Nat) (refCount : String → Nat) : Nat → List (Nat × Node) → Option Nat
  | _, [] => none
  | j, st :: rest =>
      match lastQualIdx count refCount (j + 1) rest with
      | some r => some r
      | none => if decoderQualifies count refCount st then some j else none

/-- The claim C10, stating the case analysis of getPropName.

C10: getPropName is total and never throws: for every AST node it returns
the name when the node is an identifier, the value when it is a string
literal, the decimal rendering of the value when it is a numeric literal,
and the empty string for every other node kind.  Totality holds by
construction (the Lean function is total); the four cases are proved below.
-/
theorem c10_getPropName_cases :
    (∀ s, getPropName (.identifier s) = s) ∧
    (∀ s, getPropName (.stringLiteral s) = s) ∧
    (∀ v, getPropName (.numericLiteral v) = toString v) ∧
    (∀ n, isIdentifier n = false → isStringLiteral n = false → isNumericLiteral n = false →
      getPropName n = "") := by
  refine ⟨fun s => rfl, fun s => rfl, fun v => rfl, fun n h1 h2 h3 => ?_⟩
  simp [getPropName, h1, h2, h3]

/-- Witness for C10: the fallback case evaluated at a concrete non-literal,
non-identifier node. -/
theorem c10_getPropName_cases_witness :
    isIdentifier Node.breakStatement = false ∧ getPropName Node.breakStatement = "" :=
  ⟨rfl, c10_getPropName_cases.2.2.2 Node.breakStatement rfl rfl rfl⟩

/-- Every `foldStep` result is either the node unchanged or `valueToNode` of
an evaluated constant. -/
theorem foldStep_cases (m : Node) : foldStep m = m ∨ ∃ v, foldStep m = valueToNode v := by
  cases m
  case binaryExpression op l r =>
    have he : foldStep (.binaryExpression op l r) =
        if (isIdentifier l || isIdentifier r) = true then .binaryExpression op l r
        else if (isLiteral l && isLiteral r) = true then
          match evaluateNode (.binaryExpression op l r) with
          | some v => valueToNode v
          | none => .binaryExpression op l r
        else .binaryExpression op l r := rfl
    rw [he]
    split_ifs with h1 h2
    · exact Or.inl rfl
    · cases h : evaluateNode (.binaryExpression op l r) with
      | none => simp [h]
      | some v => simp [h]
    · exact Or.inl rfl
  all_goals exact Or.inl rfl

/-- The binary folding pass fixes every `valueToNode` image. -/
theorem mapUp_foldStep_valueToNode (v : JsValue) :
    mapUp foldStep (valueToNode v) = valueToNode v := by
  cases v with
  | num n =>
      by_cases h : 0 ≤ n
      · simp only [valueToNode, if_pos h]; rfl
      · simp only [valueToNode, if_neg h]; rfl
  | str s => rfl
  | boolean b => rfl
  | undef => rfl

/-- Key step for the idempotence of the binary folding pass: a node whose
children are already folded is fixed by the pass after its own fold step. -/
theorem mapUp_foldStep_key (X : Node) (hX : mapUp foldStep X = foldStep X) :
    mapUp foldStep (foldStep X) = foldStep X := by
  rcases foldStep_cases X with h | ⟨v, h⟩
  · rw [h]; rw [h] at hX; exact hX
  · rw [h]; exact mapUp_foldStep_valueToNode v

mutual

/-- The binary folding pass of `calcBinary` is idempotent. -/
theorem mapUp_foldStep_idem (n : Node) :
    mapUp foldStep (mapUp foldStep n) = mapUp foldStep n :=
  match n with
  | .numericLiteral _ => rfl
  | .stringLiteral _ => rfl
  | .booleanLiteral _ => rfl
  | .identifier _ => rfl
  | .arrayExpression es => by
      simp only [mapUp]
      rw [mapUpList_foldStep_idem es]
  | .binaryExpression op l r => by
      simp only [mapUp]
      refine mapUp_foldStep_key _ ?_
      simp only [mapUp]
      rw [mapUp_foldStep_idem l, mapUp_foldStep_idem r]
  | .unaryExpression op a => by
      simp only [mapUp]
      rw [mapUp_foldStep_idem a]
  | .assignmentExpression l r => by
      simp only [mapUp]
      rw [mapUp_foldStep_idem l, mapUp_foldStep_idem r]
  | .memberExpression o p c => by
      simp only [mapUp]
      rw [mapUp_foldStep_idem o, mapUp_foldStep_idem p]
  | .callExpression c as => by
      simp only [mapUp]
      rw [mapUp_foldStep_idem c, mapUpList_foldStep_idem as]
  | .sequenceExpression es => by
      simp only [mapUp]
      rw [mapUpList_foldStep_idem es]
  | .functionExpression ps b => by
      simp only [mapUp]
      rw [mapUp_foldStep_idem b]
  | .conditionalExpression t c a => by
      simp only [mapUp]
      rw [mapUp_foldStep_idem t, mapUp_foldStep_idem c, mapUp_foldStep_idem a]
  | .expressionStatement e => by
      simp only [mapUp]
      rw [mapUp_foldStep_idem e]
  | .variableDeclarator x init => by
      simp only [mapUp]
      rw [mapUpOpt_foldStep_idem init]
  | .variableDeclaration k ds => by
      simp only [mapUp]
      rw [mapUpList_foldStep_idem ds]
  | .returnStatement a => by
      simp only [mapUp]
      rw [mapUpOpt_foldStep_idem a]
  | .throwStatement a => by
      simp only [mapUp]
      rw [mapUp_foldStep_idem a]
  | .ifStatement t c a => by
      simp only [mapUp]
      rw [mapUp_foldStep_idem t, mapUp_foldStep_idem c, mapUpOpt_foldStep_idem a]
  | .switchCase t cs => by
      simp only [mapUp]
      rw [mapUpOpt_foldStep_idem t, mapUpList_foldStep_idem cs]
  | .switchStatement d cs => by
      simp only [mapUp]
      rw [mapUp_foldStep_idem d, mapUpList_foldStep_idem cs]
  | .forStatement i t u b => by
      simp only [mapUp]
      rw [mapUpOpt_foldStep_idem i, mapUpOpt_foldStep_idem t, mapUpOpt_foldStep_idem u, mapUp_foldStep_idem b]
  | .forInStatement l r b => by
      simp only [mapUp]
      rw [mapUp_foldStep_idem l, mapUp_foldStep_idem r, mapUp_foldStep_idem b]
  | .whileStatement t b => by
      simp only [mapUp]
      rw [mapUp_foldStep_idem t, mapUp_foldStep_idem b]
  | .blockStatement b => by
      simp only [mapUp]
      rw [mapUpList_foldStep_idem b]
  | .breakStatement => rfl
  | .continueStatement => rfl
  | .emptyStatement => rfl
  | .debuggerStatement => rfl
  | .functionDeclaration nm ps b => by
      simp only [mapUp]
      rw [mapUp_foldStep_idem b]

/-- List companion of the idempotence of the binary folding pass. -/
theorem mapUpList_foldStep_idem (es : List Node) :
    mapUpList foldStep (mapUpList foldStep es) = mapUpList foldStep es :=
  match es with
  | [] => rfl
  | e :: es2 => by
      simp only [mapUpList]
      rw [mapUp_foldStep_idem e, mapUpList_foldStep_idem es2]

/-- Option companion of the idempotence of the binary folding pass. -/
theorem mapUpOpt_foldStep_idem (a : Option Node) :
    mapUpOpt foldStep (mapUpOpt foldStep a) = mapUpOpt foldStep a :=
  match a with
  | none => rfl
  | some e => by
      simp only [mapUpOpt]
      rw [mapUp_foldStep_idem e]

end

/-- Literal nodes contain no identifiers. -/
theorem cid_of_literal (m : Node) (h : isLiteral m = true) : containsIdentifier m = false := by
  cases m <;> first | rfl | (simp [isLiteral] at h)

/-- One fold step preserves the presence of identifiers: the folding branch
requires two literal operands, which contain none. -/
theorem foldStep_preserves_cid (n : Node) (h : containsIdentifier n = true) :
    containsIdentifier (foldStep n) = true := by
  cases n
  case binaryExpression op l r =>
    have he : foldStep (.binaryExpression op l r) =
        if (isIdentifier l || isIdentifier r) = true then .binaryExpression op l r
        else if (isLiteral l && isLiteral r) = true then
          match evaluateNode (.binaryExpression op l r) with
          | some v => valueToNode v
          | none => .binaryExpression op l r
        else .binaryExpression op l r := rfl
    rw [he]
    split_ifs with h1 h2
    · exact h
    · rw [Bool.and_eq_true] at h2
      have hcl := cid_of_literal l h2.1
      have hcr := cid_of_literal r h2.2
      simp only [containsIdentifier] at hcl hcr
      simp [containsIdentifier, anyNode, isIdentifier, hcl, hcr] at h
    · exact h
  all_goals exact h

mutual

/-- The binary folding pass preserves the presence of identifiers. -/
theorem cid_mapUp_foldStep (n : Node) (h : containsIdentifier n = true) :
    containsIdentifier (mapUp foldStep n) = true :=
  match n, h with
  | .numericLiteral _, h => by simp [containsIdentifier, anyNode, isIdentifier] at h
  | .stringLiteral _, h => by simp [containsIdentifier, anyNode, isIdentifier] at h
  | .booleanLiteral _, h => by simp [containsIdentifier, anyNode, isIdentifier] at h
  | .identifier nm, h => h
  | .arrayExpression es, h => by
      show containsIdentifier (.arrayExpression (mapUpList foldStep es)) = true
      simp only [containsIdentifier, anyNode, isIdentifier, Bool.false_or] at h ⊢
      exact cidList_mapUp_foldStep es h
  | .binaryExpression op l r, h => by
      show containsIdentifier
        (foldStep (.binaryExpression op (mapUp foldStep l) (mapUp foldStep r))) = true
      apply foldStep_preserves_cid
      simp only [containsIdentifier, anyNode, isIdentifier, Bool.false_or,
        Bool.or_eq_true] at h ⊢
      rcases h with h | h
      · exact Or.inl (cid_mapUp_foldStep l h)
      · exact Or.inr (cid_mapUp_foldStep r h)
  | .unaryExpression op a, h => by
      show containsIdentifier (.unaryExpression op (mapUp foldStep a)) = true
      simp only [containsIdentifier, anyNode, isIdentifier, Bool.false_or] at h ⊢
      exact cid_mapUp_foldStep a h
  | .assignmentExpression l r, h => by
      show containsIdentifier
        (.assignmentExpression (mapUp foldStep l) (mapUp foldStep r)) = true
      simp only [containsIdentifier, anyNode, isIdentifier, Bool.false_or,
        Bool.or_eq_true] at h ⊢
      rcases h with h | h
      · exact Or.inl (cid_mapUp_foldStep l h)
      · exact Or.inr (cid_mapUp_foldStep r h)
  | .memberExpression o p c, h => by
      show containsIdentifier (.memberExpression (mapUp foldStep o) (mapUp foldStep p) c) = true
      simp only [containsIdentifier, anyNode, isIdentifier, Bool.false_or,
        Bool.or_eq_true] at h ⊢
      rcases h with h | h
      · exact Or.inl (cid_mapUp_foldStep o h)
      · exact Or.inr (cid_mapUp_foldStep p h)
  | .callExpression c as, h => by
      show containsIdentifier (.callExpression (mapUp foldStep c) (mapUpList foldStep as)) = true
      simp only [containsIdentifier, anyNode, isIdentifier, Bool.false_or,
        Bool.or_eq_true] at h ⊢
      rcases h with h | h
      · exact Or.inl (cid_mapUp_foldStep c h)
      · exact Or.inr (cidList_mapUp_foldStep as h)
  | .sequenceExpression es, h => by
      show containsIdentifier (.sequenceExpression (mapUpList foldStep es)) = true
      simp only [containsIdentifier, anyNode, isIdentifier, Bool.false_or] at h ⊢
      exact cidList_mapUp_foldStep es h
  | .functionExpression ps b, h => by
      show containsIdentifier (.functionExpression ps (mapUp foldStep b)) = true
      simp only [containsIdentifier, anyNode, isIdentifier, Bool.false_or] at h ⊢
      exact cid_mapUp_foldStep b h
  | .conditionalExpression t c a, h => by
      show containsIdentifier (.conditionalExpression (mapUp foldStep t) (mapUp foldStep c)
        (mapUp foldStep a)) = true
      simp only [containsIdentifier, anyNode, isIdentifier, Bool.false_or,
        Bool.or_eq_true] at h ⊢
      rcases h with (h | h) | h
      · exact Or.inl (Or.inl (cid_mapUp_foldStep t h))
      · exact Or.inl (Or.inr (cid_mapUp_foldStep c h))
      · exact Or.inr (cid_mapUp_foldStep a h)
  | .expressionStatement e, h => by
      show containsIdentifier (.expressionStatement (mapUp foldStep e)) = true
      simp only [containsIdentifier, anyNode, isIdentifier, Bool.false_or] at h ⊢
      exact cid_mapUp_foldStep e h
  | .variableDeclarator x init, h => by
      show containsIdentifier (.variableDeclarator x (mapUpOpt foldStep init)) = true
      simp only [containsIdentifier, anyNode, isIdentifier, Bool.false_or] at h ⊢
      exact cidOpt_mapUp_foldStep init h
  | .variableDeclaration k ds, h => by
      show containsIdentifier (.variableDeclaration k (mapUpList foldStep ds)) = true
      simp only [containsIdentifier, anyNode, isIdentifier, Bool.false_or] at h ⊢
      exact cidList_mapUp_foldStep ds h
  | .returnStatement a, h => by
      show containsIdentifier (.returnStatement (mapUpOpt foldStep a)) = true
      simp only [containsIdentifier, anyNode, isIdentifier, Bool.false_or] at h ⊢
      exact cidOpt_mapUp_foldStep a h
  | .throwStatement a, h => by
      show containsIdentifier (.throwStatement (mapUp foldStep a)) = true
      simp only [containsIdentifier, anyNode, isIdentifier, Bool.false_or] at h ⊢
      exact cid_mapUp_foldStep a h
  | .ifStatement t c a, h => by
      show containsIdentifier (.ifStatement (mapUp foldStep t) (mapUp foldStep c)
        (mapUpOpt foldStep a)) = true
      simp only [containsIdentifier, anyNode, isIdentifier, Bool.false_or,
        Bool.or_eq_true] at h ⊢
      rcases h with (h | h) | h
      · exact Or.inl (Or.inl (cid_mapUp_foldStep t h))
      · exact Or.inl (Or.inr (cid_mapUp_foldStep c h))
      · exact Or.inr (cidOpt_mapUp_foldStep a h)
  | .switchCase t cs, h => by
      show containsIdentifier (.switchCase (mapUpOpt foldStep t) (mapUpList foldStep cs)) = true
      simp only [containsIdentifier, anyNode, isIdentifier, Bool.false_or,
        Bool.or_eq_true] at h ⊢
      rcases h with h | h
      · exact Or.inl (cidOpt_mapUp_foldStep t h)
      · exact Or.inr (cidList_mapUp_foldStep cs h)
  | .switchStatement d cs, h => by
      show containsIdentifier (.switchStatement (mapUp foldStep d) (mapUpList foldStep cs)) = true
      simp only [containsIdentifier, anyNode, isIdentifier, Bool.false_or,
        Bool.or_eq_true] at h ⊢
      rcases h with h | h
      · exact Or.inl (cid_mapUp_foldStep d h)
      · exact Or.inr (cidList_mapUp_foldStep cs h)
  | .forStatement i t u b, h => by
      show containsIdentifier (.forStatement (mapUpOpt foldStep i) (mapUpOpt foldStep t)
        (mapUpOpt foldStep u) (mapUp foldStep b)) = true
      simp only [containsIdentifier, anyNode, isIdentifier, Bool.false_or,
        Bool.or_eq_true] at h ⊢
      rcases h with ((h | h) | h) | h
      · exact Or.inl (Or.inl (Or.inl (cidOpt_mapUp_foldStep i h)))
      · exact Or.inl (Or.inl (Or.inr (cidOpt_mapUp_foldStep t h)))
      · exact Or.inl (Or.inr (cidOpt_mapUp_foldStep u h))
      · exact Or.inr (cid_mapUp_foldStep b h)
  | .forInStatement l r b, h => by
      show containsIdentifier (.forInStatement (mapUp foldStep l) (mapUp foldStep r)
        (mapUp foldStep b)) = true
      simp only [containsIdentifier, anyNode, isIdentifier, Bool.false_or,
        Bool.or_eq_true] at h ⊢
      rcases h with (h | h) | h
      · exact Or.inl (Or.inl (cid_mapUp_foldStep l h))
      · exact Or.inl (Or.inr (cid_mapUp_foldStep r h))
      · exact Or.inr (cid_mapUp_foldStep b h)
  | .whileStatement t b, h => by
      show containsIdentifier (.whileStatement (mapUp foldStep t) (mapUp foldStep b)) = true
      simp only [containsIdentifier, anyNode, isIdentifier, Bool.false_or,
        Bool.or_eq_true] at h ⊢
      rcases h with h | h
      · exact Or.inl (cid_mapUp_foldStep t h)
      · exact Or.inr (cid_mapUp_foldStep b h)
  | .blockStatement b, h => by
      show containsIdentifier (.blockStatement (mapUpList foldStep b)) = true
      simp only [containsIdentifier, anyNode, isIdentifier, Bool.false_or] at h ⊢
      exact cidList_mapUp_foldStep b h
  | .breakStatement, h => by simp [containsIdentifier, anyNode, isIdentifier] at h
  | .continueStatement, h => by simp [containsIdentifier, anyNode, isIdentifier] at h
  | .emptyStatement, h => by simp [containsIdentifier, anyNode, isIdentifier] at h
  | .debuggerStatement, h => by simp [containsIdentifier, anyNode, isIdentifier] at h
  | .functionDeclaration nm ps b, h => by
      show containsIdentifier (.functionDeclaration nm ps (mapUp foldStep b)) = true
      simp only [containsIdentifier, anyNode, isIdentifier, Bool.false_or] at h ⊢
      exact cid_mapUp_foldStep b h

/-- List companion of `cid_mapUp_foldStep`. -/
theorem cidList_mapUp_foldStep (es : List Node) (h : anyNodeList isIdentifier es = true) :
    anyNodeList isIdentifier (mapUpList foldStep es) = true :=
  match es, h with
  | e :: rest, h => by
      simp only [mapUpList, anyNodeList, Bool.or_eq_true] at h ⊢
      rcases h with h | h
      · exact Or.inl (cid_mapUp_foldStep e h)
      · exact Or.inr (cidList_mapUp_foldStep rest h)

/-- Option companion of `cid_mapUp_foldStep`. -/
theorem cidOpt_mapUp_foldStep (a : Option Node) (h : anyNodeOpt isIdentifier a = true) :
    anyNodeOpt isIdentifier (mapUpOpt foldStep a) = true :=
  match a, h with
  | some e, h => by
      simp only [mapUpOpt, anyNodeOpt] at h ⊢
      exact cid_mapUp_foldStep e h

end

/-- A node containing an identifier matches none of the boolean-literal
rewrite patterns of the unary pass. -/
theorem unaryBoolStep_none_of_cid (n : Node) (h : containsIdentifier n = true) :
    unaryBoolStep n = none := by
  unfold unaryBoolStep
  split
  · simp [containsIdentifier, anyNode, anyNodeList, isIdentifier] at h
  · simp [containsIdentifier, anyNode, anyNodeList, isIdentifier] at h
  · simp [containsIdentifier, anyNode, isIdentifier] at h
  · simp [containsIdentifier, anyNode, isIdentifier] at h
  · rfl

/-- The unary pass never turns a tree containing an identifier into a
literal: the step does not fire on it and the node kind is preserved. -/
theorem mapDown_unaryBoolStep_not_literal (n : Node) (h : containsIdentifier n = true) :
    isLiteral (mapDown unaryBoolStep n) = false := by
  have h4 := unaryBoolStep_none_of_cid n h
  cases n <;>
    first
      | (simp [containsIdentifier, anyNode, isIdentifier] at h; done)
      | (simp only [mapDown]; rw [h4]; rfl)

/-- A start-offset scan that never matches returns the incoming index. -/
theorem scanIndexGo_no_match (start : Nat) :
    ∀ (rest : List (Nat × Node)) (i idx : Nat),
      start ∉ rest.map Prod.fst → scanIndexGo start i idx rest = idx
  | [], _, _, _ => rfl
  | st :: rest, i, idx, h => by
      simp only [List.map_cons, List.mem_cons] at h
      push_neg at h
      have hne : ¬(st.1 = start) := fun he => h.1 he.symm
      simp only [scanIndexGo]
      rw [if_neg hne]
      exact scanIndexGo_no_match start rest (i + 1) idx h.2

/-- With pairwise-distinct start offsets, the scan of the start of the
statement at position `j` returns `i + j + 1`, whatever index it starts
from. -/
theorem scanIndexGo_found :
    ∀ (l : List (Nat × Node)) (j i idx : Nat) (st : Nat × Node),
      l[j]? = some st → (l.map Prod.fst).Nodup →
      scanIndexGo st.1 i idx l = i + j + 1
  | [], j, _, _, _, h, _ => by simp at h
  | b :: rest, 0, i, idx, st, h, hnd => by
      simp only [List.getElem?_cons_zero, Option.some.injEq] at h
      subst h
      simp only [scanIndexGo, if_true]
      rw [scanIndexGo_no_match b.1 rest (i + 1) (i + 1)
        (by simp only [List.map_cons, List.nodup_cons] at hnd; exact hnd.1)]
  | b :: rest, j + 1, i, idx, st, h, hnd => by
      simp only [List.getElem?_cons_succ] at h
      simp only [List.map_cons, List.nodup_cons] at hnd
      have hmem : st ∈ rest := by
        have := List.getElem?_eq_some_iff.mp h
        exact this.choose_spec ▸ List.getElem_mem this.choose
      have hb : b.1 ≠ st.1 := by
        intro he
        exact hnd.1 (he ▸ List.mem_map_of_mem Prod.fst hmem)
      simp only [scanIndexGo, if_neg hb]
      rw [scanIndexGo_found rest j (i + 1) idx st h hnd.2]
      omega

/-- The scan loop finds the position of the classified statement. -/
theorem scanIndexLoop_found (body : List (Nat × Node)) (j : Nat) (st : Nat × Node)
    (h : body[j]? = some st) (hnd : (body.map Prod.fst).Nodup) (idx : Nat) :
    scanIndexLoop body st.1 idx = j + 1 := by
  have := scanIndexGo_found body j 0 idx st h hnd
  simpa [scanIndexLoop] using this

/-- The candidate fold of one statement appends the qualifying names and
sets the index to the scan result exactly when some candidate qualifies. -/
theorem decoder_inner_fold (count : Nat) (refCount : String → Nat) (K : Nat) :
    ∀ (names : List String) (acc : List String × Nat),
      names.foldl (fun acc2 nm =>
        if refCount nm ≥ count then (acc2.1 ++ [nm], K) else acc2) acc =
      (acc.1 ++ names.filter (fun nm => decide (refCount nm ≥ count)),
       if names.any (fun nm => decide (refCount nm ≥ count)) then K else acc.2)
  | [], acc => by simp
  | nm :: rest, acc => by
      by_cases h : refCount nm ≥ count
      · simp only [List.foldl_cons, if_pos h]
        rw [decoder_inner_fold count refCount K rest (acc.1 ++ [nm], K)]
        simp [h, List.filter_cons, List.any_cons, List.append_assoc]
      · simp only [List.foldl_cons, if_neg h]
        rw [decoder_inner_fold count refCount K rest acc]
        simp [h, List.filter_cons, List.any_cons]

/-- Characterization of the decoder-search traversal on the suffix starting
at position `j`: the qualifying candidate names are appended in order, and
the index becomes one past the last qualifying statement position (or stays
as given when none qualifies). -/
theorem findDecryptGo_spec (count : Nat) (refCount : String → Nat)
    (body : List (Nat × Node)) (hnd : (body.map Prod.fst).Nodup) :
    ∀ (todo : List (Nat × Node)) (j : Nat) (acc : List String × Nat),
      body.drop j = todo →
      findDecryptGo count refCount body todo acc =
        (acc.1 ++ todo.flatMap (fun st => (decryptCandidates st.2).filter
            (fun nm => decide (refCount nm ≥ count))),
         match lastQualIdx count refCount j todo with
         | some r => r + 1
         | none => acc.2)
  | [], j, acc, _ => by simp [findDecryptGo, lastQualIdx]
  | st :: rest, j, acc, hdrop => by
      have hget : body[j]? = some st := by
        have h0 : (body.drop j)[0]? = some st := by rw [hdrop]; simp
        rwa [List.getElem?_drop, Nat.add_zero] at h0
      have hdrop1 : body.drop (j + 1) = rest := by
        have h1 : (body.drop j).drop 1 = rest := by rw [hdrop]; simp
        rwa [List.drop_drop] at h1
      have hscan : ∀ idx, scanIndexLoop body st.1 idx = j + 1 :=
        fun idx => scanIndexLoop_found body j st hget hnd idx
      simp only [findDecryptGo]
      simp only [hscan]
      rw [decoder_inner_fold]
      rw [findDecryptGo_spec count refCount body hnd rest (j + 1) _ hdrop1]
      simp only [List.flatMap_cons, lastQualIdx]
      cases hl : lastQualIdx count refCount (j + 1) rest with
      | some r => simp [List.append_assoc]
      | none =>
          by_cases hq : (decryptCandidates st.2).any (fun nm => decide (refCount nm ≥ count))
          · simp [decoderQualifies, hq, List.append_assoc]
          · simp [decoderQualifies, hq, List.append_assoc]

/-- The claim C8.

C8: findDecryptFnByCallCount classifies a program-level function declaration
or function-expression declarator as a decoder exactly when its reference
count reaches the threshold (the decoder list equals the qualifying
candidates in program order); with pairwise-distinct start offsets the
recorded index is one past the position of the last classified declaration;
the setup prefix is the body up to that index; and with `isRemove` the
program continues from that index (and is untouched otherwise). -/
theorem c8_findDecryptFnByCallCount (count : Nat) (refCount : String → Nat)
    (body : List (Nat × Node)) (hnd : (body.map Prod.fst).Nodup) :
    findDecryptFnByCallCount count refCount body =
      (body.flatMap (fun st => (decryptCandidates st.2).filter
          (fun nm => decide (refCount nm ≥ count))),
       match lastQualIdx count refCount 0 body with
       | some r => r + 1
       | none => 0) ∧
    (findDecryptSetup count refCount body true).2.1 =
      body.take (findDecryptFnByCallCount count refCount body).2 ∧
    (findDecryptSetup count refCount body true).2.2 =
      body.drop (findDecryptFnByCallCount count refCount body).2 ∧
    (findDecryptSetup count refCount body false).2.2 = body := by
  refine ⟨?_, rfl, rfl, rfl⟩
  have := findDecryptGo_spec count refCount body hnd body 0 ([], 0) (by simp)
  simpa [findDecryptFnByCallCount] using this

/-- Witness for C8: a four-statement program whose second statement declares
a decoder with 120 references against the default threshold of 100; the
prefix keeps the first two statements and removal drops them. -/
theorem c8_findDecryptFnByCallCount_witness :
    (([(0, Node.expressionStatement (.stringLiteral "setup")),
       (10, Node.functionDeclaration "dec" [] (.blockStatement [])),
       (20, callStmt "dec"),
       (30, Node.functionDeclaration "other" [] (.blockStatement []))].map Prod.fst).Nodup) ∧
    findDecryptFnByCallCount 100 (fun nm => if nm = "dec" then 120 else 3)
      [(0, Node.expressionStatement (.stringLiteral "setup")),
       (10, Node.functionDeclaration "dec" [] (.blockStatement [])),
       (20, callStmt "dec"),
       (30, Node.functionDeclaration "other" [] (.blockStatement []))] = (["dec"], 2) :=
  ⟨by decide,
   (c8_findDecryptFnByCallCount 100 (fun nm => if nm = "dec" then 120 else 3)
      [(0, Node.expressionStatement (.stringLiteral "setup")),
       (10, Node.functionDeclaration "dec" [] (.blockStatement [])),
       (20, callStmt "dec"),
       (30, Node.functionDeclaration "other" [] (.blockStatement []))]
      (by decide)).1⟩

mutual

/-- Substituting a reference-free node for a name leaves no reference to that
name anywhere in the result. -/
theorem substIdent_no_ref (x : String) (v : Node) (hv : refersTo x v = false) :
    (st : Node) → refersTo x (substIdent x v st) = false
  | .numericLiteral _ => rfl
  | .stringLiteral _ => rfl
  | .booleanLiteral _ => rfl
  | .identifier m => by
      by_cases hm : m = x
      · simp only [substIdent, if_pos hm]; exact hv
      · simp only [substIdent, if_neg hm, refersTo]; simp [hm]
  | .arrayExpression es => by
      simp only [substIdent, refersTo]
      exact substIdentList_no_ref x v hv es
  | .binaryExpression op l r => by
      simp [substIdent, refersTo, substIdent_no_ref x v hv l, substIdent_no_ref x v hv r]
  | .unaryExpression op a => by
      simp only [substIdent, refersTo]
      exact substIdent_no_ref x v hv a
  | .assignmentExpression l r => by
      simp [substIdent, refersTo, substIdent_no_ref x v hv l, substIdent_no_ref x v hv r]
  | .memberExpression o p c => by
      cases c
      · simp [substIdent, refersTo, substIdent_no_ref x v hv o]
      · simp [substIdent, refersTo, substIdent_no_ref x v hv o, substIdent_no_ref x v hv p]
  | .callExpression c as => by
      simp [substIdent, refersTo, substIdent_no_ref x v hv c, substIdentList_no_ref x v hv as]
  | .sequenceExpression es => by
      simp only [substIdent, refersTo]
      exact substIdentList_no_ref x v hv es
  | .functionExpression ps b => by
      simp only [substIdent, refersTo]
      exact substIdent_no_ref x v hv b
  | .conditionalExpression t c a => by
      simp [substIdent, refersTo, substIdent_no_ref x v hv t, substIdent_no_ref x v hv c, substIdent_no_ref x v hv a]
  | .expressionStatement e => by
      simp only [substIdent, refersTo]
      exact substIdent_no_ref x v hv e
  | .variableDeclarator y init => by
      simp only [substIdent, refersTo]
      exact substIdentOpt_no_ref x v hv init
  | .variableDeclaration k ds => by
      simp only [substIdent, refersTo]
      exact substIdentList_no_ref x v hv ds
  | .returnStatement a => by
      simp only [substIdent, refersTo]
      exact substIdentOpt_no_ref x v hv a
  | .throwStatement a => by
      simp only [substIdent, refersTo]
      exact substIdent_no_ref x v hv a
  | .ifStatement t c a => by
      simp [substIdent, refersTo, substIdent_no_ref x v hv t, substIdent_no_ref x v hv c, substIdentOpt_no_ref x v hv a]
  | .switchCase t cs => by
      simp [substIdent, refersTo, substIdentOpt_no_ref x v hv t, substIdentList_no_ref x v hv cs]
  | .switchStatement d cs => by
      simp [substIdent, refersTo, substIdent_no_ref x v hv d, substIdentList_no_ref x v hv cs]
  | .forStatement i t u b => by
      simp [substIdent, refersTo, substIdentOpt_no_ref x v hv i, substIdentOpt_no_ref x v hv t, substIdentOpt_no_ref x v hv u, substIdent_no_ref x v hv b]
  | .forInStatement l r b => by
      simp [substIdent, refersTo, substIdent_no_ref x v hv l, substIdent_no_ref x v hv r, substIdent_no_ref x v hv b]
  | .whileStatement t b => by
      simp [substIdent, refersTo, substIdent_no_ref x v hv t, substIdent_no_ref x v hv b]
  | .blockStatement b => by
      simp only [substIdent, refersTo]
      exact substIdentList_no_ref x v hv b
  | .breakStatement => rfl
  | .continueStatement => rfl
  | .emptyStatement => rfl
  | .debuggerStatement => rfl
  | .functionDeclaration nm ps b => by
      simp only [substIdent, refersTo]
      exact substIdent_no_ref x v hv b

/-- List companion of `substIdent_no_ref`. -/
theorem substIdentList_no_ref (x : String) (v : Node) (hv : refersTo x v = false) :
    (es : List Node) → refersToList x (substIdentList x v es) = false
  | [] => rfl
  | e :: es => by
      simp [substIdentList, refersToList, substIdent_no_ref x v hv e,
        substIdentList_no_ref x v hv es]

/-- Option companion of `substIdent_no_ref`. -/
theorem substIdentOpt_no_ref (x : String) (v : Node) (hv : refersTo x v = false) :
    (a : Option Node) → refersToOpt x (substIdentOpt x v a) = false
  | none => rfl
  | some e => by
      simp only [substIdentOpt, refersToOpt]
      exact substIdent_no_ref x v hv e

end

/-- The claim C3.

C3: for a single-declarator declaration whose init is a string or numeric
literal and whose binding is constant (no assignment to the name follows),
replaceConstant removes the declaration and replaces every reference with
the literal: the program continues as the substituted remainder, in which no
reference to the name remains; the scenario program
`let a = "debugger"; f(a);` becomes `f("debugger");`.  In the value
semantics of the embedding the inserted literal is equal to a clone of the
initializer (object identity is not modelled). -/
theorem c3_replaceConstant (k x : String) (lit : Node) (rest : List Node)
    (hlit : (isStringLiteral lit || isNumericLiteral lit) = true)
    (hno : rest.any (assignsToName x) = false) :
    replaceConstant (.variableDeclaration k [.variableDeclarator x (some lit)] :: rest) =
      replaceConstant (rest.map (substIdent x lit)) ∧
    refersToList x (substIdentList x lit rest) = false ∧
    replaceConstant constProgramExample =
      [.expressionStatement (.callExpression (.identifier "f") [.stringLiteral "debugger"])] := by
  have hv : refersTo x lit = false := by
    cases lit <;> simp_all [isStringLiteral, isNumericLiteral, refersTo]
  refine ⟨?_, substIdentList_no_ref x lit hv rest, rfl⟩
  show replaceConstantGo (rest.length + 1)
      (.variableDeclaration k [.variableDeclarator x (some lit)] :: rest) =
    replaceConstant (rest.map (substIdent x lit))
  simp only [replaceConstantGo, hlit, hno]
  simp [replaceConstant, List.length_map]

/-- Witness for C3: the general statement applied to the scenario program,
with the hypotheses discharged by evaluation. -/
theorem c3_replaceConstant_witness :
    (isStringLiteral (.stringLiteral "debugger") || isNumericLiteral (.stringLiteral "debugger"))
      = true ∧
    [Node.expressionStatement (.callExpression (.identifier "f") [.identifier "a"])].any
      (assignsToName "a") = false ∧
    replaceConstant constProgramExample =
      [.expressionStatement (.callExpression (.identifier "f") [.stringLiteral "debugger"])] :=
  ⟨rfl, rfl,
    (c3_replaceConstant "let" "a" (.stringLiteral "debugger")
      [.expressionStatement (.callExpression (.identifier "f") [.identifier "a"])]
      rfl rfl).2.2⟩

/-- Literal nodes are not identifiers. -/
theorem isIdentifier_of_literal (m : Node) (h : isLiteral m = true) : isIdentifier m = false := by
  cases m <;> first | rfl | (simp [isLiteral] at h)

/-- The binary folding pass fixes literal nodes. -/
theorem mapUp_foldStep_of_literal (m : Node) (h : isLiteral m = true) :
    mapUp foldStep m = m := by
  cases m <;> first | rfl | (simp [isLiteral] at h)

/-- The unary pass fixes every `valueToNode` image. -/
theorem mapDown_uBS_valueToNode (v : JsValue) :
    mapDown unaryBoolStep (valueToNode v) = valueToNode v := by
  cases v with
  | num n =>
      by_cases h : 0 ≤ n
      · simp only [valueToNode, if_pos h]; rfl
      · simp only [valueToNode, if_neg h]; rfl
  | str s => rfl
  | boolean b => rfl
  | undef => rfl

/-- The claim C7.

C7: calcBinary folds a binary expression with two literal operands into the
node of its evaluated value whenever the evaluation is confident; chains like
the string concatenation of "1", "2" and "3" collapse fully; the four unary
boolean patterns rewrite to their boolean literals; and an expression
containing an identifier is never folded into a literal. -/
theorem c7_calcBinary :
    (∀ op l r v, isLiteral l = true → isLiteral r = true →
      evaluateNode (.binaryExpression op l r) = some v →
      calcBinary (.binaryExpression op l r) = valueToNode v) ∧
    calcBinary (.binaryExpression .add (.binaryExpression .add (.stringLiteral "1")
      (.stringLiteral "2")) (.stringLiteral "3")) = .stringLiteral "123" ∧
    calcBinary (.unaryExpression .bang (.unaryExpression .bang (.arrayExpression []))) =
      .booleanLiteral true ∧
    calcBinary (.unaryExpression .bang (.arrayExpression [])) = .booleanLiteral false ∧
    calcBinary (.unaryExpression .bang (.numericLiteral 0)) = .booleanLiteral true ∧
    calcBinary (.unaryExpression .bang (.numericLiteral 1)) = .booleanLiteral false ∧
    (∀ e, containsIdentifier e = true → isLiteral (calcBinary e) = false) := by
  refine ⟨fun op l r v hl hr hev => ?_, rfl, rfl, rfl, rfl, rfl, fun e h => ?_⟩
  · have h1 : mapUp foldStep (.binaryExpression op l r) = valueToNode v := by
      simp only [mapUp]
      rw [mapUp_foldStep_of_literal l hl, mapUp_foldStep_of_literal r hr]
      have he : foldStep (.binaryExpression op l r) =
          if (isIdentifier l || isIdentifier r) = true then .binaryExpression op l r
          else if (isLiteral l && isLiteral r) = true then
            match evaluateNode (.binaryExpression op l r) with
            | some v2 => valueToNode v2
            | none => .binaryExpression op l r
          else .binaryExpression op l r := rfl
      rw [he, if_neg (by simp [isIdentifier_of_literal l hl, isIdentifier_of_literal r hr]),
        if_pos (by simp [hl, hr])]
      simp only [hev]
    show mapDown unaryBoolStep (mapUp foldStep (.binaryExpression op l r)) = valueToNode v
    rw [h1]
    exact mapDown_uBS_valueToNode v
  · show isLiteral (mapDown unaryBoolStep (mapUp foldStep e)) = false
    exact mapDown_unaryBoolStep_not_literal _ (cid_mapUp_foldStep e h)

/-- Witness for C7: the literal-fold case at a concrete string
concatenation, and the identifier case at a bare identifier. -/
theorem c7_calcBinary_witness :
    isLiteral (Node.stringLiteral "debu") = true ∧
    evaluateNode (.binaryExpression .add (.stringLiteral "debu") (.stringLiteral "gger")) =
      some (.str "debugger") ∧
    calcBinary (.binaryExpression .add (.stringLiteral "debu") (.stringLiteral "gger")) =
      .stringLiteral "debugger" ∧
    containsIdentifier (.identifier "x") = true ∧
    isLiteral (calcBinary (.identifier "x")) = false :=
  ⟨rfl, rfl,
   c7_calcBinary.1 .add (.stringLiteral "debu") (.stringLiteral "gger")
     (.str "debugger") rfl rfl rfl,
   rfl, c7_calcBinary.2.2.2.2.2.2 (.identifier "x") rfl⟩

/-- The claim C9 as amended.

Amended C9: not every transform is idempotent.  removeSelfCallFn unwraps one
nesting level per run (the hoisted body is skipped), so a nested self-call
changes again on the second run; by contrast, the binary-literal folding pass
of calcBinary is idempotent on every tree. -/
theorem c9_idempotence_amended :
    (∀ n, foldBinaries (foldBinaries n) = foldBinaries n) ∧
    removeSelfCallFn (removeSelfCallFn nestedSelfCallExample) ≠
      removeSelfCallFn nestedSelfCallExample := by
  constructor
  · exact fun n => mapUp_foldStep_idem n
  · intro h
    have h2 : (Node.blockStatement [.blockStatement [callStmt "a"]]) =
        .blockStatement [bangSelfCallExample] := h
    simp [bangSelfCallExample, callStmt] at h2

/-- The claim C1, evaluated where it breaks.

C1 claims that a node whose test does not evaluate to a constant is left
unchanged.  The source tests the raw return of `evaluateTruthy()`: a
not-confident evaluation returns `undefined`, which the `if` treats exactly
like constant-falsy, so `if(cond){a()}else{b()}` with an unevaluable `cond`
is replaced by `b();` instead of being left unchanged, contradicting the
stated behaviour and the function documentation (remove the blocks that can
never execute).  The conjuncts: the constant-falsy scenario from the claim
does hold (`if(false){x()}else{y()}` becomes `y();`); the truthy direction
holds; the evaluation of the identifier test is not confident; and yet the
statement is rewritten to the alternate branch. -/
theorem c1_removeUnusedBlock_bug :
    removeUnusedBlockStmts [ifFalseExample] = [callStmt "y"] ∧
    removeUnusedBlockStmts [.ifStatement (.booleanLiteral true)
      (.blockStatement [callStmt "x"]) (some (.blockStatement [callStmt "y"]))] = [callStmt "x"] ∧
    evaluateTruthy (.identifier "cond") = none ∧
    removeUnusedBlockStmts [ifUnknownExample] = [callStmt "b"] :=
  ⟨rfl, rfl, rfl, rfl⟩

/-- Counterexample for C6: the bare self-call `(function(){a()})();` is an
expression statement whose expression is the call itself, with no unary
wrapper; `removeSelfCallFn` leaves it unchanged, while the claim requires the
body to be hoisted as a block statement. -/
theorem c6_removeSelfCallFn_counterexample :
    removeSelfCallFn bareSelfCallExample = bareSelfCallExample ∧
    bareSelfCallExample ≠ .blockStatement [callStmt "a"] := by
  refine ⟨rfl, fun h => ?_⟩
  simp [bareSelfCallExample] at h

/-- The claim C6 as amended.

Amended C6: only an expression statement whose expression is a unary
expression (any operator) over a zero-argument call of a function expression
is rewritten by removeSelfCallFn, the function body being hoisted in its
place; in particular `!function(){a()}();` becomes the block `{ a(); }`,
while the bare form `(function(){a()})();` is left unchanged. -/
theorem c6_removeSelfCallFn_amended :
    (∀ op ps b, removeSelfCallFn (.expressionStatement (.unaryExpression op
      (.callExpression (.functionExpression ps b) []))) = b) ∧
    removeSelfCallFn bangSelfCallExample = .blockStatement [callStmt "a"] ∧
    removeSelfCallFn bareSelfCallExample = bareSelfCallExample :=
  ⟨fun _ _ _ => rfl, rfl, rfl⟩

/-- Counterexample for C9: `removeSelfCallFn` is not idempotent.  On the
nested self-call `!function(){ !function(){a()}(); }();` the first run hoists
the outer body and skips it (`path.skip()`), leaving the inner self-call
statement intact; the second run then rewrites the inner one, so the outputs
of one and of two runs differ. -/
theorem c9_idempotence_counterexample :
    removeSelfCallFn (removeSelfCallFn nestedSelfCallExample) ≠
      removeSelfCallFn nestedSelfCallExample ∧
    removeSelfCallFn nestedSelfCallExample = .blockStatement [bangSelfCallExample] ∧
    removeSelfCallFn (removeSelfCallFn nestedSelfCallExample) =
      .blockStatement [.blockStatement [callStmt "a"]] := by
  refine ⟨fun h => ?_, rfl, rfl⟩
  have h2 : (Node.blockStatement [.blockStatement [callStmt "a"]]) =
      .blockStatement [bangSelfCallExample] := h
  simp [bangSelfCallExample, callStmt] at h2

/-- Counterexample for C5: on `for(a = 1, b = 2;;){ break; }` the transform
emits every init sub-expression (including the final one) as a preceding
statement and clears the init, while the claim keeps the final
sub-expression in the init role. -/
theorem c5_sequence_counterexample :
    sequenceExit forInitSeqExample ≠ sequenceClaimForInit forInitSeqExample ∧
    sequenceExit forInitSeqExample =
      [.expressionStatement (.assignmentExpression (.identifier "a") (.numericLiteral 1)),
       .expressionStatement (.assignmentExpression (.identifier "b") (.numericLiteral 2)),
       .forStatement none none none (.blockStatement [.breakStatement])] ∧
    sequenceClaimForInit forInitSeqExample =
      [.expressionStatement (.assignmentExpression (.identifier "a") (.numericLiteral 1)),
       .forStatement
         (some (.assignmentExpression (.identifier "b") (.numericLiteral 2)))
         none none (.blockStatement [.breakStatement])] := by
  refine ⟨fun h => ?_, rfl, rfl⟩
  have h1 : (sequenceExit forInitSeqExample).length = 3 := rfl
  have h2 : (sequenceClaimForInit forInitSeqExample).length = 2 := rfl
  rw [h, h2] at h1
  exact absurd h1 (by decide)

/-- The claim C5 as amended.

Amended C5: an expression statement holding a sequence becomes one expression
statement per sub-expression, in order; for a sequence in a
return/throw/if-test/switch-discriminant/for-in-right/single-declarator-init
position the leading sub-expressions are emitted before the node and the
final one remains in the original role; a void-wrapped return sequence emits
every sub-expression and clears the return argument; a for-statement init
sequence is emitted in full before the loop with the init cleared; a
for-update sequence with an empty body keeps the final sub-expression as
update and moves the leading ones into a new body block. -/
theorem c5_sequence_amended :
    (∀ es, sequenceExit (.expressionStatement (.sequenceExpression es)) =
      es.map .expressionStatement) ∧
    (∀ front last, sequenceExit (.returnStatement (some (.sequenceExpression (front ++ [last])))) =
      front.map .expressionStatement ++ [.returnStatement (some last)]) ∧
    (∀ es, sequenceExit (.returnStatement
        (some (.unaryExpression .voidOp (.sequenceExpression es)))) =
      es.map .expressionStatement ++ [.returnStatement none]) ∧
    (∀ front last c a, sequenceExit (.ifStatement (.sequenceExpression (front ++ [last])) c a) =
      front.map .expressionStatement ++ [.ifStatement last c a]) ∧
    (∀ front last cs, sequenceExit (.switchStatement (.sequenceExpression (front ++ [last])) cs) =
      front.map .expressionStatement ++ [.switchStatement last cs]) ∧
    (∀ front last, sequenceExit (.throwStatement (.sequenceExpression (front ++ [last]))) =
      front.map .expressionStatement ++ [.throwStatement last]) ∧
    (∀ l front last b, sequenceExit (.forInStatement l (.sequenceExpression (front ++ [last])) b) =
      front.map .expressionStatement ++ [.forInStatement l last b]) ∧
    (∀ es t b, sequenceExit (.forStatement (some (.sequenceExpression es)) t none b) =
      es.map .expressionStatement ++ [.forStatement none t none b]) ∧
    (∀ t front last, sequenceExit (.forStatement none t
        (some (.sequenceExpression (front ++ [last]))) .emptyStatement) =
      [.forStatement none t (some last) (.blockStatement (front.map .expressionStatement))]) ∧
    (∀ k x front last, sequenceExit (.variableDeclaration k
        [.variableDeclarator x (some (.sequenceExpression (front ++ [last])))]) =
      front.map .expressionStatement
        ++ [.variableDeclaration k [.variableDeclarator x (some last)]]) ∧
    sequenceExit seqStmtExample =
      [.expressionStatement (.assignmentExpression (.identifier "a") (.numericLiteral 1)),
       .expressionStatement (.assignmentExpression (.identifier "b") (.numericLiteral 2))] := by
  refine ⟨fun es => rfl, fun front last => ?_, fun es => rfl, fun front last c a => ?_,
    fun front last cs => ?_, fun front last => ?_, fun l front last b => ?_,
    fun es t b => ?_, fun t front last => ?_, fun k x front last => ?_, rfl⟩
  all_goals
    simp [sequenceExit, splitLast, List.getLast?_concat, List.dropLast_concat]

/-- Counterexample for C4: a flattening idiom whose single case holds two
statements before its continue (`case "0": a(); b(); continue;`).  The
source keeps only `p.consequent[0]` of each case, so `b();` is lost, while
the claim emits the statements of the case. -/
theorem c4_controlFlowFlat_counterexample :
    controlFlowFlatBody cffTwoStmtBody ≠ controlFlowFlatClaimBody cffTwoStmtBody ∧
    controlFlowFlatBody cffTwoStmtBody = [callStmt "a"] ∧
    controlFlowFlatClaimBody cffTwoStmtBody = [callStmt "a", callStmt "b"] := by
  refine ⟨fun h => ?_, rfl, rfl⟩
  have h1 : (controlFlowFlatBody cffTwoStmtBody).length = 1 := rfl
  have h2 : (controlFlowFlatClaimBody cffTwoStmtBody).length = 2 := rfl
  rw [h, h2] at h1
  exact absurd h1 (by decide)

/-- The claim C4 as amended.

Amended C4: for a function body containing the flattening idiom,
controlFlowFlat emits the first statement of each string-literal case,
ordered by the split alphabet, dropping entries whose first statement is a
continue statement; the emitted statements are appended at the end of the
enclosing function block, the loop is removed and the alphabet declarator is
deleted.  On the scenario input the four cases contribute their lead
statements in alphabet order with the loop gone. -/
theorem c4_controlFlowFlat_amended :
    (∀ body cases alpha,
      body.findSome? loopSwitchCases = some cases →
      findSplitStrList body = some alpha →
      controlFlowFlatBody body =
        ((removeSplitDeclStmts body).filter fun s => (loopSwitchCases s).isNone)
          ++ flatSequences (jsSplit '|' alpha) (switchCaseLeads cases)) ∧
    controlFlowFlatBody cffScenarioBody =
      [.variableDeclaration "var" [.variableDeclarator "i" (some (.numericLiteral 0))],
       .ifStatement
         (.binaryExpression .neqStrict (.identifier "t") (.stringLiteral "link"))
         (.blockStatement [.returnStatement none]) none,
       .variableDeclaration "var"
         [.variableDeclarator "x" (some (.callExpression (.identifier "d") [.identifier "t"]))],
       .expressionStatement (.assignmentExpression
         (.memberExpression (.identifier "x") (.stringLiteral "charset") true)
         (.stringLiteral "utf-8")),
       .returnStatement (some (.identifier "x"))] := by
  refine ⟨fun body cases alpha h1 h2 => ?_, rfl⟩
  unfold controlFlowFlatBody
  rw [h1, h2]

/-- Witness for C4: the general characterization applied to the concrete
scenario body, its hypotheses discharged by evaluation. -/
theorem c4_controlFlowFlat_amended_witness :
    cffScenarioBody.findSome? loopSwitchCases =
      some [cffCaseZero, cffCaseOne, cffCaseTwo, cffCaseThree] ∧
    findSplitStrList cffScenarioBody = some "1|3|2|0" ∧
    controlFlowFlatBody cffScenarioBody =
      ((removeSplitDeclStmts cffScenarioBody).filter fun s => (loopSwitchCases s).isNone)
        ++ flatSequences (jsSplit '|' "1|3|2|0")
            (switchCaseLeads [cffCaseZero, cffCaseOne, cffCaseTwo, cffCaseThree]) :=
  ⟨rfl, rfl,
    c4_controlFlowFlat_amended.1 cffScenarioBody
      [cffCaseZero, cffCaseOne, cffCaseTwo, cffCaseThree] "1|3|2|0" rfl rfl⟩

/-- The claim C2, against the abstracted decoder evaluation.

C2: a call whose callee is a listed decoder identifier and whose arguments
contain no identifier is, on successful evaluation, replaced by a string
literal of the decoded value and recorded as a change; on a thrown
evaluation it is left in place with the leading failure comment and not
recorded; recording happens exactly for the successfully substituted sites;
and a decoder call with an identifier argument is returned untouched for
every evaluator, hence never evaluated. -/
theorem c2_decryptReplace (fns : List String) (oracle : Node → Except String String)
    (name : String) (args : List Node) (hmem : name ∈ fns) :
    (args.any isIdentifier = false →
      ((∀ s, oracle (.callExpression (.identifier name) args) = .ok s →
        decryptReplaceCall fns oracle (.callExpression (.identifier name) args) =
          ⟨.stringLiteral s, none, true⟩) ∧
       (∀ msg, oracle (.callExpression (.identifier name) args) = .error msg →
        decryptReplaceCall fns oracle (.callExpression (.identifier name) args) =
          ⟨.callExpression (.identifier name) args, some ("解密失败: " ++ msg), false⟩) ∧
       ((decryptReplaceCall fns oracle (.callExpression (.identifier name) args)).recorded = true ↔
        ∃ s, oracle (.callExpression (.identifier name) args) = .ok s))) ∧
    (args.any isIdentifier = true →
      ∀ oracle2 : Node → Except String String,
        decryptReplaceCall fns oracle2 (.callExpression (.identifier name) args) =
          ⟨.callExpression (.identifier name) args, none, false⟩) := by
  constructor
  · intro hno
    refine ⟨fun s hs => ?_, fun msg hm => ?_, ?_⟩
    · simp [decryptReplaceCall, hmem, hno, hs]
    · simp [decryptReplaceCall, hmem, hno, hm]
    · cases ho : oracle (.callExpression (.identifier name) args) with
      | ok s => simp [decryptReplaceCall, hmem, hno, ho]
      | error msg => simp [decryptReplaceCall, hmem, hno, ho]
  · intro hyes oracle2
    simp [decryptReplaceCall, hmem, hyes]

/-- Witness for C2: a listed decoder call with constant arguments under an
evaluator that succeeds, substituted by the decoded string literal. -/
theorem c2_decryptReplace_witness :
    ("_0x4698" : String) ∈ ["_0x4698"] ∧
    [Node.numericLiteral 469].any isIdentifier = false ∧
    decryptReplaceCall ["_0x4698"] (fun _ => .ok "hello")
      (.callExpression (.identifier "_0x4698") [.numericLiteral 469]) =
      ⟨.stringLiteral "hello", none, true⟩ :=
  ⟨by simp, rfl,
    ((c2_decryptReplace ["_0x4698"] (fun _ => .ok "hello") "_0x4698"
      [.numericLiteral 469] (by simp)).1 rfl).1 "hello" rfl⟩

end Deob
